import Mathlib

/-!
# Verification of the bitpop interactive vault client

A shallow embedding, in Lean 4, of the state, search, configuration,
password-generation and YAML round-trip logic of the bitpop terminal client
(TypeScript sources under `src/`).  Pure functions are translated directly;
stateful React code is embedded as explicit state-transition functions; the
external collaborators (the `bw` vault agent, the clipboard, the editor, the
`yaml` and `microfuzz` npm packages, and `crypto.randomInt`) are modelled as
explicit inputs or, where noted, as Lean functions faithful to the subset of
their behaviour the client exercises.

Machine integers do not occur in the modelled fragment (JavaScript numbers
here are small integers); strings are Lean `String`s manipulated as `List
Char`.
-/

/-! ## JavaScript string primitives

`String.prototype.trim` removes the ECMAScript WhiteSpace and LineTerminator
characters from both ends.  We enumerate that character set explicitly.
-/

/-- The characters removed by JavaScript's `String.prototype.trim` (ECMAScript
WhiteSpace ∪ LineTerminator). -/
def isJsSpace (c : Char) : Bool :=
  c = '\t' || c = '\n' || c = (Char.ofNat 11) || c = (Char.ofNat 12) ||
  c = '\r' || c = ' ' || c = (Char.ofNat 0xA0) || c = (Char.ofNat 0x1680) ||
  (0x2000 ≤ c.toNat && c.toNat ≤ 0x200A) || c = (Char.ofNat 0x2028) ||
  c = (Char.ofNat 0x2029) || c = (Char.ofNat 0x202F) ||
  c = (Char.ofNat 0x205F) || c = (Char.ofNat 0x3000) || c = (Char.ofNat 0xFEFF)

/-- `trimStart` on a character list. -/
def jsTrimLeftL (l : List Char) : List Char := l.dropWhile isJsSpace

/-- `trimEnd` on a character list. -/
def jsTrimRightL (l : List Char) : List Char :=
  (l.reverse.dropWhile isJsSpace).reverse

/-- JavaScript `s.trim()` on a character list. -/
def jsTrimL (l : List Char) : List Char := jsTrimRightL (jsTrimLeftL l)

/-- JavaScript `s.trim()`. -/
def jsTrim (s : String) : String := String.mk (jsTrimL s.data)

/-- JavaScript `s.toLowerCase()` (ASCII case mapping suffices for the
modelled data). -/
def jsToLower (s : String) : String := String.mk (s.data.map Char.toLower)

/-- JavaScript truthiness of a string: `""` is falsy, everything else truthy. -/
def strTruthy (s : String) : Bool := s ≠ ""

/-- Truthiness of an optional string field (`undefined` and `""` are falsy). -/
def optStrTruthy : Option String → Bool
  | none => false
  | some s => strTruthy s

/-! ## Password generation (`src/src/utils/password.ts`)

`crypto.randomInt(0, n)` returns a uniformly random integer in `[0, n)`.  We
model the randomness source as an explicit input `rand : Nat → Nat` (the value
drawn at the `i`-th call), reduced modulo the requested bound, so every
realisable draw sequence corresponds to some `rand`.
-/

namespace Password

structure RandomPasswordOptions where
  length : Nat
  uppercase : Bool
  lowercase : Bool
  number : Bool
  special : Bool
deriving Repr, DecidableEq

structure PassphraseOptions where
  words : Nat
  separator : String
  capitalize : Bool
  includeNumber : Bool
deriving Repr, DecidableEq

def UPPERCASE : List Char := "ABCDEFGHIJKLMNOPQRSTUVWXYZ".data
def LOWERCASE : List Char := "abcdefghijklmnopqrstuvwxyz".data
def NUMBERS : List Char := "0123456789".data
def SPECIAL : List Char := "!@#$%^&*()_+-=[]{}|;:,.<>?".data

/-- `generateRandomPassword` from `password.ts`: build the charset from the
enabled character classes, fall back to lowercase+digits when all classes are
disabled, then draw `length` characters.  The `i`-th call of
`crypto.randomInt(0, charset.length)` is modelled as `rand i % charset.length`. -/
def generateRandomPassword (rand : Nat → Nat)
    (options : RandomPasswordOptions) : String :=
  let charset : List Char :=
    (if options.uppercase then UPPERCASE else []) ++
    (if options.lowercase then LOWERCASE else []) ++
    (if options.number then NUMBERS else []) ++
    (if options.special then SPECIAL else [])
  let charset := if charset.length = 0 then LOWERCASE ++ NUMBERS else charset
  String.mk ((List.range options.length).map
    (fun i => charset.getD (rand i % charset.length) 'a'))

/-- `generateNumberSuffix` from `password.ts`: with probability 1/2 the empty
string, otherwise a single decimal digit.  The two `randomInt` draws are the
explicit inputs `r1` (bound 2) and `r2` (bound 10). -/
def generateNumberSuffix (r1 r2 : Nat) : String :=
  if r1 % 2 = 0 then "" else toString (r2 % 10)

/-- JavaScript `word.charAt(0).toUpperCase() + word.slice(1)`. -/
def capitalizeWord (w : String) : String :=
  match w.data with
  | [] => ""
  | c :: cs => String.mk (c.toUpper :: cs)

/-- `generatePassphrase` from `password.ts`.  The external EFF diceware
word-list draw `generatePassphraseWords(wordCount)` is modelled as the
controlled input `wordsSource`; the two random draws of each word's optional
number suffix are the controlled input `rng` (indexed by word position). -/
def generatePassphrase (wordsSource : Nat → List String)
    (rng : Nat → Nat × Nat) (options : PassphraseOptions) : String :=
  let wordCount := max 3 options.words
  let words := wordsSource wordCount
  let formattedWords := words.enum.map (fun iw =>
    let formatted := if options.capitalize then capitalizeWord iw.2 else iw.2
    if options.includeNumber then
      formatted ++ generateNumberSuffix (rng iw.1).1 (rng iw.1).2
    else formatted)
  String.intercalate options.separator formattedWords

/-- The union of the character classes enabled in `options`. -/
def enabledCharset (options : RandomPasswordOptions) : List Char :=
  (if options.uppercase then UPPERCASE else []) ++
  (if options.lowercase then LOWERCASE else []) ++
  (if options.number then NUMBERS else []) ++
  (if options.special then SPECIAL else [])

end Password

/-! ## Configuration loading (`config.ts`, `src/unnamed/part_006`)

The YAML text of the config file reaches `loadConfig` through the external
`yaml` package's `parse`.  We model the outcome of that call as an explicit
input: either the parser threw (`parseError`) or it produced a JavaScript
value, represented by the closed datatype `YVal` (YAML cannot produce
functions or `undefined`; an empty or comment-only file produces `null`).
JavaScript property access on that value is modelled by `jsGetField`, which
faithfully raises a `TypeError` on `null`.
-/

namespace Cfg

/-- A JavaScript value produced by `yaml.parse`. -/
inductive YVal where
  | vnull
  | vbool (b : Bool)
  | vnum (n : Int)
  | vstr (s : String)
  | varr (xs : List YVal)
  | vobj (fields : List (String × YVal))

/-- The own enumerable fields contributed by `{...v}` spread.  Only objects
contribute the config keys; spreading a string contributes numeric index keys
only (never a config key), and `null` / numbers / booleans contribute none. -/
def objFields : YVal → List (String × YVal)
  | .vobj fs => fs
  | _ => []

/-- First binding of key `k` (YAML `parse` rejects duplicate keys, so at most
one binding per key occurs). -/
def lookupField (fs : List (String × YVal)) (k : String) : Option YVal :=
  (fs.find? (fun f => f.1 = k)).map (·.2)

/-- JavaScript member access `v.k`: a `TypeError` on `null`, the field (or
`undefined`, modelled `none`) otherwise. -/
def jsGetField (v : YVal) (k : String) : Except String (Option YVal) :=
  match v with
  | .vnull => .error ("TypeError: Cannot read properties of null (reading '"
      ++ k ++ "')")
  | .vobj fs => .ok (lookupField fs k)
  | _ => .ok none

structure Shortcut where
  key : String
  search : String
  description : Option String
deriving Repr, DecidableEq

inductive PgType where
  | random
  | passphrase
deriving Repr, DecidableEq

structure PasswordGenerationConfig where
  type : PgType
  length : Int
  uppercase : Bool
  lowercase : Bool
  number : Bool
  special : Bool
  words : Int
  separator : String
  capitalize : Bool
  includeNumber : Bool
deriving Repr, DecidableEq

structure Config where
  auto_close_hours : Int
  clipboard_clear_seconds : Int
  max_visible_entries : Int
  totp_expiry_warning_seconds : Int
  shortcuts : List Shortcut
  password_generation : PasswordGenerationConfig
deriving Repr, DecidableEq

def DEFAULT_PASSWORD_GENERATION : PasswordGenerationConfig :=
  { type := .passphrase
    length := 16
    uppercase := true
    lowercase := true
    number := true
    special := true
    words := 5
    separator := "-"
    capitalize := true
    includeNumber := true }

def DEFAULT_CONFIG : Config :=
  { auto_close_hours := 4
    clipboard_clear_seconds := 30
    max_visible_entries := 30
    totp_expiry_warning_seconds := 5
    shortcuts := []
    password_generation := DEFAULT_PASSWORD_GENERATION }

/-- `isValidShortcut` from `config.ts`, fused with the construction of the
typed record the filtered element already is in TypeScript: an object whose
`key` is a nonempty string and whose `search` is a string. -/
def toValidShortcut (v : YVal) : Option Shortcut :=
  match v with
  | .vobj fs =>
    match lookupField fs "key", lookupField fs "search" with
    | some (.vstr k), some (.vstr s) =>
      if k.length > 0 then
        some { key := k, search := s
               description := match lookupField fs "description" with
                 | some (.vstr d) => some d
                 | _ => none }
      else none
    | _, _ => none
  | _ => none

/-- `validatePasswordGeneration` from `config.ts`.  `!pg || typeof pg !==
"object"` rejects everything except objects and arrays (`typeof null` is
`"object"` but `null` is falsy); property access on an array yields
`undefined` for every config key, so arrays also produce the defaults. -/
def validatePasswordGeneration (pg : Option YVal) : PasswordGenerationConfig :=
  let defaults := DEFAULT_PASSWORD_GENERATION
  match pg with
  | some (.vobj fs) =>
    { type := match lookupField fs "type" with
        | some (.vstr t) => if t = "random" then .random else .passphrase
        | _ => .passphrase
      length := match lookupField fs "length" with
        | some (.vnum n) => if n ≥ 5 then n else defaults.length
        | _ => defaults.length
      uppercase := match lookupField fs "uppercase" with
        | some (.vbool b) => b
        | _ => defaults.uppercase
      lowercase := match lookupField fs "lowercase" with
        | some (.vbool b) => b
        | _ => defaults.lowercase
      number := match lookupField fs "number" with
        | some (.vbool b) => b
        | _ => defaults.number
      special := match lookupField fs "special" with
        | some (.vbool b) => b
        | _ => defaults.special
      words := match lookupField fs "words" with
        | some (.vnum n) => if n ≥ 3 then n else defaults.words
        | _ => defaults.words
      separator := match lookupField fs "separator" with
        | some (.vstr s) => s
        | _ => defaults.separator
      capitalize := match lookupField fs "capitalize" with
        | some (.vbool b) => b
        | _ => defaults.capitalize
      includeNumber := match lookupField fs "includeNumber" with
        | some (.vbool b) => b
        | _ => defaults.includeNumber }
  | _ => defaults

/-- `validateConfig` from `config.ts`: spread the parsed value over the
defaults, then replace each mistyped or out-of-range field by its default and
filter the shortcut list.  The final line of the source reads
`parsed.password_generation` — a member access on the *parsed value itself* —
which throws a `TypeError` when the parsed value is `null`. -/
def validateConfig (parsed : YVal) : Except String Config := do
  let get := fun k => lookupField (objFields parsed) k
  let auto_close_hours : Int := match get "auto_close_hours" with
    | some (.vnum n) => if n > 0 then n else DEFAULT_CONFIG.auto_close_hours
    | _ => DEFAULT_CONFIG.auto_close_hours
  let clipboard_clear_seconds : Int := match get "clipboard_clear_seconds" with
    | some (.vnum n) =>
      if n ≥ 0 then n else DEFAULT_CONFIG.clipboard_clear_seconds
    | _ => DEFAULT_CONFIG.clipboard_clear_seconds
  let max_visible_entries : Int := match get "max_visible_entries" with
    | some (.vnum n) => if n > 0 then n else DEFAULT_CONFIG.max_visible_entries
    | _ => DEFAULT_CONFIG.max_visible_entries
  let totp_expiry_warning_seconds : Int :=
    match get "totp_expiry_warning_seconds" with
    | some (.vnum n) =>
      if n ≥ 0 then n else DEFAULT_CONFIG.totp_expiry_warning_seconds
    | _ => DEFAULT_CONFIG.totp_expiry_warning_seconds
  let shortcuts : List Shortcut := match get "shortcuts" with
    | some (.varr xs) => xs.filterMap toValidShortcut
    | _ => DEFAULT_CONFIG.shortcuts
  let pgRaw ← jsGetField parsed "password_generation"
  return { auto_close_hours, clipboard_clear_seconds, max_visible_entries
           totp_expiry_warning_seconds, shortcuts
           password_generation := validatePasswordGeneration pgRaw }

/-- Outcome of `yaml.parse` on the config file's text. -/
inductive ParseOutcome where
  | parseError
  | value (v : YVal)

/-- `loadConfig` from `config.ts`, for an existing config file whose text
parses to `outcome` (the missing-file branch, which writes the defaults to
disk, performs no validation and is outside this model).  The `try`/`catch`
around `parseYaml` maps a parser exception to the defaults; the subsequent
`validateConfig` call is *not* guarded. -/
def loadConfig (outcome : ParseOutcome) : Except String Config :=
  match outcome with
  | .parseError => .ok DEFAULT_CONFIG
  | .value v => validateConfig v

end Cfg

/-! ## Vault item data model (`src/src/bw/client.ts`)

The JSON item schema decoded from the vault agent.  The `BwUri.match` field is
renamed `matchType` (`match` is a Lean keyword); `fields` and `revisionDate`
appear on items as used by `yaml.ts` and `useSearch.ts`.
-/

namespace Bw

structure BwUri where
  matchType : Option Int := none
  uri : String
deriving Repr, DecidableEq

structure BwLogin where
  username : Option String := none
  password : Option String := none
  totp : Option String := none
  uris : Option (List BwUri) := none
deriving Repr, DecidableEq

structure BwCard where
  cardholderName : Option String := none
  brand : Option String := none
  number : Option String := none
  expMonth : Option String := none
  expYear : Option String := none
  code : Option String := none
deriving Repr, DecidableEq

structure BwIdentity where
  title : Option String := none
  firstName : Option String := none
  middleName : Option String := none
  lastName : Option String := none
  email : Option String := none
  phone : Option String := none
  address1 : Option String := none
  city : Option String := none
  state : Option String := none
  postalCode : Option String := none
  country : Option String := none
deriving Repr, DecidableEq

structure BwSshKey where
  privateKey : Option String := none
  publicKey : Option String := none
  keyFingerprint : Option String := none
deriving Repr, DecidableEq

/-- A custom field (`BwField`): `type` 0 is text, 1 is hidden. -/
structure BwField where
  name : String
  value : Option String := none
  type : Int := 0
deriving Repr, DecidableEq

/-- `CipherType` constants. -/
def cipherLogin : Int := 1
def cipherSecureNote : Int := 2
def cipherCard : Int := 3
def cipherIdentity : Int := 4
def cipherSshKey : Int := 5

structure BwItem where
  id : String
  organizationId : Option String := none
  folderId : Option String := none
  type : Int
  name : String
  notes : Option String := none
  favorite : Bool := false
  login : Option BwLogin := none
  card : Option BwCard := none
  identity : Option BwIdentity := none
  sshKey : Option BwSshKey := none
  secureNoteType : Option Int := none
  reprompt : Int := 0
  fields : Option (List BwField) := none
  revisionDate : Option String := none
deriving Repr, DecidableEq

end Bw

/-! ## Search (`useSearch.ts`, embedded in `src/src/hooks/useSearch.test.ts`)

The `results` memo of the `useSearch` hook (the sort-mode variant used by the
`App` in `DetailView.tsx`), as a pure function of the item list, the query and
the sort mode.  Two external functions are modelled:

* `String.prototype.localeCompare` — modelled as default-locale collation:
  a case-insensitive primary comparison of the character sequences followed by
  a code-point tie-break.  "Sorted ascending by name" below always means
  sorted with respect to this comparator.
* the `@nozbe/microfuzz` matcher — modelled from the spec: any correct fuzzy
  ranking method is admissible; we use exact-substring filtering.  The claims
  settled here exercise only the empty-query branch, which does not call it.
-/

namespace Search

open Bw

/-- Three-way code-point comparison of characters. -/
def cmpChar (a b : Char) : Ordering :=
  if a.toNat < b.toNat then .lt else if b.toNat < a.toNat then .gt else .eq

/-- Lexicographic three-way comparison of character lists. -/
def cmpCharList : List Char → List Char → Ordering
  | [], [] => .eq
  | [], _ :: _ => .lt
  | _ :: _, [] => .gt
  | a :: as, b :: bs => (cmpChar a b).then (cmpCharList as bs)

/-- `a.localeCompare(b)` (default locale): case-insensitive primary pass,
code-point tie-break; negative / zero / positive result. -/
def localeCompare (a b : String) : Int :=
  match (cmpCharList (jsToLower a).data (jsToLower b).data).then
      (cmpCharList a.data b.data) with
  | .lt => -1
  | .eq => 0
  | .gt => 1

/-- JavaScript `Array.prototype.sort` with a numeric comparator: a stable sort
placing `a` before `b` whenever the comparator is non-positive (modelled as a
stable insertion sort). -/
def jsSortBy {α : Type} (cmp : α → α → Int) (l : List α) : List α :=
  l.insertionSort (fun a b => cmp a b ≤ 0)

structure SearchResult where
  item : BwItem
  score : Int
deriving Repr, DecidableEq

structure ItemForSearch where
  item : BwItem
  searchText : String
deriving Repr, DecidableEq

/-- `prepareSearchItems`: searchable text is the lowercased name followed by
the space-joined URIs (`item.login?.uris?.map(u => u.uri).join(" ") ?? ""`). -/
def prepareSearchItems (items : List BwItem) : List ItemForSearch :=
  items.map (fun item =>
    let uris := match item.login with
      | some lg => match lg.uris with
        | some us => String.intercalate " " (us.map (·.uri))
        | none => ""
      | none => ""
    { item, searchText := jsToLower (item.name ++ " " ++ uris) })

/-- Modelled from the spec: the external `@nozbe/microfuzz` matcher ("any
correct fuzzy-ranking method"); modelled as exact-substring filtering with a
constant positive score.  Unused by the claims settled here (they exercise the
empty-query branch only). -/
def microfuzz (items : List ItemForSearch) (q : String) :
    List (ItemForSearch × Int) :=
  items.filterMap (fun it =>
    if List.IsInfix q.data it.searchText.data then some (it, 1) else none)

inductive SortMode where
  | default
  | date
deriving Repr, DecidableEq

/-- The `results` memo of `useSearch` (sort-mode variant): empty or
whitespace-only query returns every item with score 0, sorted by name
(`default`) or by revision date descending (`date`); otherwise the fuzzy
matches, re-sorted by date when in `date` mode. -/
def searchResults (items : List BwItem) (query : String)
    (sortMode : SortMode) : List SearchResult :=
  let sortByDate := fun (a b : SearchResult) =>
    localeCompare (b.item.revisionDate.getD "") (a.item.revisionDate.getD "")
  if jsTrim query = "" then
    let mapped : List SearchResult := items.map (fun item => ⟨item, 0⟩)
    match sortMode with
    | .date => jsSortBy sortByDate mapped
    | .default =>
      jsSortBy (fun a b => localeCompare a.item.name b.item.name) mapped
  else
    let found := microfuzz (prepareSearchItems items) (jsToLower query)
    let mapped : List SearchResult := found.map (fun m => ⟨m.1.item, m.2⟩)
    match sortMode with
    | .date => jsSortBy sortByDate mapped
    | .default => mapped

end Search

/-! ## Editable-item YAML surface (`src/src/utils/yaml.ts`)

`itemToYaml` builds the document as a list of lines joined by `"\n"` with a
final newline; we mirror that construction at the character-list level
(`itemToYamlLines`/`joinNl`).

`yamlToItem` feeds the document to the external `yaml` package's `parse`.
That parser is modelled (`parseYamlDoc`) on the class of documents the client
produces and edits: a top-level mapping of the ten recognised keys whose
values are double-quoted scalars with the escapes `escapeYamlValue` emits,
plain `true`/`false`, a literal block scalar (`notes: |`), or the two
block sequences (`additional_urls`, `custom_fields`).  The model is *stricter*
than real YAML — unknown keys, flow collections, plain string scalars,
anchors, etc. are rejected — so wherever the model parses successfully, the
real parser accepts the same document with the same result; no theorem below
asserts a parse failure of this model.  Duplicate keys are an error, as in the
`yaml` package's default (`uniqueKeys: true`).
-/

namespace Yaml

open Bw

/-- One escaped character of `escapeYamlValue` (`\\`, `\"`, `\n`, `\r`, `\t`
escaped, everything else verbatim; the sequential `replace` chain of the
source, backslashes first, equals this single-pass map). -/
def jsEscapeChar (c : Char) : List Char :=
  if c = '\\' then ['\\', '\\']
  else if c = '"' then ['\\', '"']
  else if c = '\n' then ['\\', 'n']
  else if c = '\r' then ['\\', 'r']
  else if c = '\t' then ['\\', 't']
  else [c]

def jsEscape (l : List Char) : List Char := (l.map jsEscapeChar).flatten

/-- `escapeYamlValue` from `yaml.ts`: escape and wrap in double quotes. -/
def escapeYamlValue (s : String) : List Char :=
  '"' :: (jsEscape s.data ++ ['"'])

/-- `lines.join("\n")`. -/
def joinNl : List (List Char) → List Char
  | [] => []
  | [l] => l
  | l :: ls => l ++ '\n' :: joinNl ls

/-- JavaScript `s.split("\n")` on a character list. -/
def splitNlOnly : List Char → List (List Char)
  | [] => [[]]
  | c :: rest =>
    if c = '\n' then [] :: splitNlOnly rest
    else
      match splitNlOnly rest with
      | [] => [[c]]
      | l :: ls => (c :: l) :: ls

/-- Split into lines at the YAML line breaks `\r\n`, `\r`, `\n`. -/
def splitBreaks : List Char → List (List Char)
  | [] => [[]]
  | c :: rest =>
    if c = '\r' then
      match rest with
      | '\n' :: rest2 => [] :: splitBreaks rest2
      | [] => [[], []]
      | c2 :: rest2 => [] :: splitBreaks (c2 :: rest2)
    else if c = '\n' then [] :: splitBreaks rest
    else
      match splitBreaks rest with
      | [] => [[c]]
      | l :: ls => (c :: l) :: ls

/-- The first URI of a login, as read by `login.uris?.[0]?.uri`. -/
def firstUri (login : BwLogin) : Option String :=
  match login.uris with
  | some (u :: _) => some u.uri
  | _ => none

/-- The 2–3 lines `itemToYaml` pushes for one custom field. -/
def fieldLines (f : Bw.BwField) : List (List Char) :=
  ["  - name: ".data ++ escapeYamlValue f.name,
   "    value: ".data ++ escapeYamlValue (f.value.getD "")]
  ++ (if f.type = 1 then ["    hidden: true".data] else [])

/-- The lines pushed by `itemToYaml` (source order preserved; each
`lines.push` contributes one element). -/
def itemToYamlLines (item : BwItem) : List (List Char) :=
  let login := item.login.getD {}
  [("# Bitpop - Edit Login: " ++ item.name).data,
   "# Save and close to update. Delete all content to cancel.".data,
   []]
  ++ ["name: ".data ++ escapeYamlValue item.name]
  ++ (if optStrTruthy login.username then
        ["username: ".data ++ escapeYamlValue (login.username.getD "")]
      else ["# username: \"\"".data])
  ++ (if optStrTruthy login.password then
        ["password: ".data ++ escapeYamlValue (login.password.getD "")]
      else ["# password: \"\"".data])
  ++ (if optStrTruthy (firstUri login) then
        ["url: ".data ++ escapeYamlValue ((firstUri login).getD "")]
      else ["# url: \"\"".data])
  ++ (if optStrTruthy login.totp then
        ["totp_secret: ".data ++ escapeYamlValue (login.totp.getD "")]
      else ["# totp_secret: \"\"".data])
  ++ (if optStrTruthy item.notes then
        (if (item.notes.getD "").data.contains '\n' then
          "notes: |".data ::
            ((splitNlOnly (item.notes.getD "").data).map
              (fun noteLine => "  ".data ++ noteLine))
        else ["notes: ".data ++ escapeYamlValue (item.notes.getD "")])
      else ["# notes: \"\"".data])
  ++ ["favorite: ".data ++ (if item.favorite then "true".data else "false".data)]
  ++ ["reprompt: ".data ++ (if item.reprompt = 1 then "true".data else "false".data)]
  ++ (if (match login.uris with
          | some us => decide (us.length > 1)
          | none => false) then
        "additional_urls:".data ::
          (((login.uris.getD []).drop 1).map
            (fun u => "  - ".data ++ escapeYamlValue u.uri))
      else ["# additional_urls:".data,
            "#   - \"https://app.example.com\"".data])
  ++ (if (match item.fields with
          | some fs => decide (fs.length > 0)
          | none => false) then
        "custom_fields:".data ::
          ((item.fields.getD []).map fieldLines).flatten
      else ["# custom_fields:".data,
            "#   - name: \"API Key\"".data,
            "#     value: \"your-key-here\"".data,
            "#     hidden: true".data])

/-- `itemToYaml` from `yaml.ts`: `lines.join("\n") + "\n"`. -/
def itemToYaml (item : BwItem) : String :=
  String.mk (joinNl (itemToYamlLines item) ++ ['\n'])

/-! ### The modelled parser -/

/-- A scalar value as decoded to JavaScript: a string or a boolean. -/
inductive YScalar where
  | str (s : String)
  | bool (b : Bool)
deriving Repr, DecidableEq

/-- Decoded `custom_fields` entry (loosely typed, as JavaScript sees it). -/
structure YamlCustomField where
  name : Option YScalar := none
  value : Option YScalar := none
  hidden : Option YScalar := none
deriving Repr, DecidableEq

/-- What one emitted custom field decodes back to. -/
def fieldConv (f : Bw.BwField) : YamlCustomField :=
  { name := some (.str f.name)
    value := some (.str (f.value.getD ""))
    hidden := if f.type = 1 then some (.bool true) else none }

/-- The decoded document (the `LoginYaml` shape, loosely typed). -/
structure LoginYaml where
  name : Option YScalar := none
  username : Option YScalar := none
  password : Option YScalar := none
  url : Option YScalar := none
  totp_secret : Option YScalar := none
  notes : Option YScalar := none
  favorite : Option YScalar := none
  reprompt : Option YScalar := none
  additional_urls : Option (List YScalar) := none
  custom_fields : Option (List YamlCustomField) := none
deriving Repr, DecidableEq

/-- Double-quoted scalar body: input after the opening quote; returns the
decoded content and the rest after the closing quote.  Exactly the escapes
`escapeYamlValue` produces are recognised. -/
def qstr : List Char → Option (List Char × List Char)
  | [] => none
  | c :: rest =>
    if c = '"' then some ([], rest)
    else if c = '\\' then
      match rest with
      | [] => none
      | e :: rest2 =>
        let dec : Option Char :=
          if e = 'n' then some '\n'
          else if e = 'r' then some '\r'
          else if e = 't' then some '\t'
          else if e = '\\' then some '\\'
          else if e = '"' then some '"'
          else none
        match dec with
        | some d => (qstr rest2).map (fun p => (d :: p.1, p.2))
        | none => none
    else (qstr rest).map (fun p => (c :: p.1, p.2))

/-- A scalar occupying the rest of a line: a double-quoted string (consumed
exactly to the end of the line) or plain `true` / `false`. -/
def parseScalar (l : List Char) : Option YScalar :=
  match l with
  | '"' :: rest =>
    match qstr rest with
    | some (content, []) => some (.str (String.mk content))
    | _ => none
  | _ =>
    if l = "true".data then some (.bool true)
    else if l = "false".data then some (.bool false)
    else none

/-- Split a line at its first `:`; `none` when the line has no colon. -/
def keySplit : List Char → Option (List Char × List Char)
  | [] => none
  | c :: rest =>
    if c = ':' then some ([], rest)
    else (keySplit rest).map (fun p => (c :: p.1, p.2))

/-- A line that YAML skips at the top level: blank or a comment. -/
def isSkipLine (l : List Char) : Bool :=
  match jsTrimLeftL l with
  | [] => true
  | '#' :: _ => true
  | _ => false

def leadingSpaces (l : List Char) : Nat := (l.takeWhile (· = ' ')).length

def allSpace (l : List Char) : Bool := l.all (· = ' ')

/-- Literal block scalar (`key: |`): auto-detect the content indentation from
the first non-empty line, reject leading all-space lines deeper than it,
consume every further line that is all-space or at least that indented, and
decode by stripping the indentation. -/
def blockTake (ls : List (List Char)) : Option (String × Nat) :=
  match ls.dropWhile allSpace with
  | [] => some ("", ls.length)
  | l :: _ =>
    let n := leadingSpaces l
    if n = 0 then none
    else if (ls.takeWhile allSpace).all (fun p => p.length ≤ n) then
      let content := ls.takeWhile (fun l2 => allSpace l2 || leadingSpaces l2 ≥ n)
      some (String.mk (joinNl (content.map (fun l2 => l2.drop n))),
            content.length)
    else none

/-- Block-sequence items of quoted scalars (`  - "…"`), as under
`additional_urls:`; returns the items and the number of consumed lines. -/
def seqTake : List (List Char) → Option (List YScalar × Nat)
  | [] => some ([], 0)
  | l :: rest =>
    if l.take 4 = "  - ".data then
      match parseScalar (l.drop 4) with
      | some v =>
        match seqTake rest with
        | some p => some (v :: p.1, p.2 + 1)
        | none => none
      | none => none
    else some ([], 0)

/-- Assign one `name`/`value`/`hidden` binding inside a `custom_fields` item;
duplicate or unknown keys are an error. -/
def setFieldKey (f : YamlCustomField) (key : List Char) (v : YScalar) :
    Option YamlCustomField :=
  if key = "name".data then
    match f.name with
    | none => some { f with name := some v }
    | some _ => none
  else if key = "value".data then
    match f.value with
    | none => some { f with value := some v }
    | some _ => none
  else if key = "hidden".data then
    match f.hidden with
    | none => some { f with hidden := some v }
    | some _ => none
  else none

/-- Block-sequence items under `custom_fields:`: each item starts with
`  - key: value` and continues with `    key: value` lines.  `cur` is the item
currently being accumulated, `acc` the completed items in order; returns the
items and the number of consumed lines. -/
def fieldsLoop (cur : Option YamlCustomField) (acc : List YamlCustomField) :
    List (List Char) → Option (List YamlCustomField × Nat)
  | [] => some (acc ++ cur.toList, 0)
  | l :: rest =>
    if l.take 4 = "  - ".data then
      match keySplit (l.drop 4) with
      | some (key, ' ' :: v) =>
        match parseScalar v with
        | some sv =>
          match setFieldKey {} key sv with
          | some f0 =>
            match fieldsLoop (some f0) (acc ++ cur.toList) rest with
            | some p => some (p.1, p.2 + 1)
            | none => none
          | none => none
        | none => none
      | _ => none
    else if l.take 4 = "    ".data then
      match cur with
      | some f =>
        match keySplit (l.drop 4) with
        | some (key, ' ' :: v) =>
          match parseScalar v with
          | some sv =>
            match setFieldKey f key sv with
            | some f2 =>
              match fieldsLoop (some f2) acc rest with
              | some p => some (p.1, p.2 + 1)
              | none => none
            | none => none
          | none => none
        | _ => none
      | none => none
    else some (acc ++ cur.toList, 0)

def fieldsTake (ls : List (List Char)) :
    Option (List YamlCustomField × Nat) :=
  fieldsLoop none [] ls

/-- Assign one recognised top-level scalar binding; duplicate keys (rejected
by the `yaml` package's default `uniqueKeys`) and unknown keys are errors. -/
def setDocKey (acc : LoginYaml) (key : List Char) (v : YScalar) :
    Option LoginYaml :=
  if key = "name".data then
    match acc.name with
    | none => some { acc with name := some v } | some _ => none
  else if key = "username".data then
    match acc.username with
    | none => some { acc with username := some v } | some _ => none
  else if key = "password".data then
    match acc.password with
    | none => some { acc with password := some v } | some _ => none
  else if key = "url".data then
    match acc.url with
    | none => some { acc with url := some v } | some _ => none
  else if key = "totp_secret".data then
    match acc.totp_secret with
    | none => some { acc with totp_secret := some v } | some _ => none
  else if key = "notes".data then
    match acc.notes with
    | none => some { acc with notes := some v } | some _ => none
  else if key = "favorite".data then
    match acc.favorite with
    | none => some { acc with favorite := some v } | some _ => none
  else if key = "reprompt".data then
    match acc.reprompt with
    | none => some { acc with reprompt := some v } | some _ => none
  else none

/-- The modelled document parser: skip blank and comment lines; otherwise the
line is a top-level `key: value` binding at indentation 0 — a quoted or
boolean scalar, the literal block `notes: |`, or one of the two block
sequences. -/
def parseDoc : List (List Char) → LoginYaml → Option LoginYaml
  | [], acc => some acc
  | l :: ls, acc =>
    if isSkipLine l then parseDoc ls acc
    else
      match keySplit l with
      | none => none
      | some (key, after) =>
        if key = "additional_urls".data then
          match after, acc.additional_urls with
          | [], none =>
            match seqTake ls with
            | some (items, k) =>
              parseDoc (ls.drop k) { acc with additional_urls := some items }
            | none => none
          | _, _ => none
        else if key = "custom_fields".data then
          match after, acc.custom_fields with
          | [], none =>
            match fieldsTake ls with
            | some (items, k) =>
              parseDoc (ls.drop k) { acc with custom_fields := some items }
            | none => none
          | _, _ => none
        else if key = "notes".data && after = " |".data then
          match acc.notes with
          | none =>
            match blockTake ls with
            | some (content, k) =>
              parseDoc (ls.drop k) { acc with notes := some (.str content) }
            | none => none
          | some _ => none
        else
          match after with
          | ' ' :: v =>
            match parseScalar v with
            | some sv =>
              match setDocKey acc key sv with
              | some acc2 => parseDoc ls acc2
              | none => none
            | none => none
          | _ => none
termination_by ls => ls.length
decreasing_by
  all_goals simp [List.length_drop]
  all_goals omega

/-- The external `yaml` package's `parse`, modelled on the document class
described at the head of this section.  A failure (`none`) covers both a
parser exception and a non-mapping result (which `yamlToItem` rejects with
the same outcome). -/
def parseYamlDoc (chars : List Char) : Option LoginYaml :=
  parseDoc (splitBreaks chars) {}

/-- The shape of the `Partial<BwItem>` value `yamlToItem` builds: `type`,
`name`, a fully-populated `login`, `favorite`, `reprompt`, `notes` and
`fields` are always set. -/
structure ItemPatch where
  type : Int
  name : String
  login : BwLogin
  favorite : Bool
  reprompt : Int
  notes : String
  fields : List BwField
deriving Repr, DecidableEq

/-- `yamlToItem` from `yaml.ts`: strip comment lines and reject an immaterial
document, parse, require a nonblank string `name`, then assemble the patch —
trimming the name and the URIs, replacing absent or mistyped scalars by `""`,
and keeping only custom fields with a nonblank string name. -/
def yamlToItem (yamlContent : String) : Option ItemPatch :=
  let contentLines := splitNlOnly yamlContent.data
  let kept := contentLines.filter (fun line =>
    match jsTrimL line with
    | '#' :: _ => false
    | _ => true)
  if jsTrimL (joinNl kept) = [] then none
  else
    match parseYamlDoc yamlContent.data with
    | none => none
    | some parsed =>
      match parsed.name with
      | some (.str n) =>
        if jsTrim n = "" then none
        else
          let uris : List BwUri :=
            (match parsed.url with
             | some (.str u) =>
               if jsTrim u ≠ "" then [{ uri := jsTrim u }] else []
             | _ => []) ++
            (match parsed.additional_urls with
             | some urls =>
               urls.filterMap (fun uv =>
                 match uv with
                 | .str u => if jsTrim u ≠ "" then some { uri := jsTrim u }
                     else none
                 | _ => none)
             | none => [])
          let login : BwLogin :=
            { username := some (match parsed.username with
                | some (.str s) => if s ≠ "" then s else ""
                | _ => "")
              password := some (match parsed.password with
                | some (.str s) => if s ≠ "" then s else ""
                | _ => "")
              totp := some (match parsed.totp_secret with
                | some (.str s) => if s ≠ "" then s else ""
                | _ => "")
              uris := some uris }
          some
            { type := 1
              name := jsTrim n
              login
              favorite := (match parsed.favorite with
                | some (.bool true) => true
                | _ => false)
              reprompt := (match parsed.reprompt with
                | some (.bool true) => (1 : Int)
                | _ => 0)
              notes := (match parsed.notes with
                | some (.str s) => if jsTrim s ≠ "" then jsTrim s else ""
                | _ => "")
              fields := (match parsed.custom_fields with
                | some cfs =>
                  cfs.filterMap (fun cf =>
                    match cf.name with
                    | some (.str nm) =>
                      if jsTrim nm ≠ "" then
                        some { name := jsTrim nm
                               value := some (match cf.value with
                                 | some (.str v) => v
                                 | _ => "")
                               type := (match cf.hidden with
                                 | some (.bool true) => (1 : Int)
                                 | _ => 0) }
                      else none
                    | _ => none)
                | none => []) }
      | _ => none

end Yaml

/-! ## The interactive session engine (`App` in `src/src/components/DetailView.tsx`)

The `App` component's state and its `useInput` keyboard handler, embedded as a
pure transition function.  External blocking calls made inside the handler
(vault-agent sync/list, the editor round trip, config reload) take their
results from an explicit environment `Env`; outward actions (agent calls,
clipboard, exit) are recorded as an effect list.  The `message` field and its
expiry timer live outside the modelled state: `showMessage` is recorded as an
effect.  The deferred `setTimeout` bodies of the create / edit / delete
mutations are embedded separately as `createContinuation` /
`editContinuation` / `deleteContinuation`.
-/

namespace App

open Bw Search

inductive AppMode where
  | password
  | loading
  | search
  | detail
  | shortcut
  | generate
  | processing
  | exiting
  | confirmDelete
  | error
deriving Repr, DecidableEq

structure AppState where
  mode : AppMode
  previousMode : Option AppMode := none
  session : Option String := none
  items : List BwItem := []
  selectedIndex : Int := 0
  selectedItem : Option BwItem := none
  error : Option String := none
  config : Cfg.Config := Cfg.DEFAULT_CONFIG
deriving Repr, DecidableEq

/-- App state plus the `useSearch` hook's state (`query`, `sortMode`). -/
structure UiState where
  app : AppState
  query : String := ""
  sortMode : SortMode := .default
deriving Repr, DecidableEq

/-- An ink `useInput` event (`returnKey` is the source's `key.return`). -/
structure KeyEvent where
  input : String := ""
  ctrl : Bool := false
  meta : Bool := false
  escape : Bool := false
  backspace : Bool := false
  delete : Bool := false
  upArrow : Bool := false
  downArrow : Bool := false
  pageUp : Bool := false
  pageDown : Bool := false
  returnKey : Bool := false
deriving Repr, DecidableEq

/-- Outward actions performed by the handler, in order. -/
inductive Effect where
  | lockVault
  | exitApp
  | showMessage (msg : String)
  | syncVault
  | listItemsCall
  | openEditor (content : String) (filenameHint : String)
  | copyClipboard (value : String)
  | scheduleClipboardClear (seconds : Int)
  | openConfigEditor
  | scheduleMutation
  | crashTypeError
  | createItemCall
  | editItemCall (id : String)
  | deleteItemCall (id : String)
deriving Repr, DecidableEq

/-- Results of the editor round trip (`openInEditor`). -/
structure EditorResult where
  success : Bool := true
  content : Option String := none
  cancelled : Bool := false
  error : String := ""
deriving Repr, DecidableEq

/-- Results of the external blocking calls the handler and the deferred
mutation bodies may make. -/
structure Env where
  syncSuccess : Bool := true
  syncError : String := ""
  listResult : Except String (List BwItem) := .ok []
  editorResult : EditorResult := {}
  totpCode : Option String := none
  configEditStatus : Int := 0
  reloadedConfig : Cfg.Config := Cfg.DEFAULT_CONFIG
  createSuccess : Bool := true
  createdItem : Option BwItem := none
  createError : String := ""
  editSuccess : Bool := true
  editError : String := ""
  deleteSuccess : Bool := true
  deleteError : String := ""
deriving Repr

/-- `cleanup`: lock the vault iff a session is held. -/
def cleanupEffects (s : AppState) : List Effect :=
  if s.session.isSome then [.lockVault] else []

/-- JavaScript `results[i]` with a possibly out-of-range or negative index. -/
def resultAt (rs : List SearchResult) (i : Int) : Option SearchResult :=
  if i < 0 then none else rs.get? i.toNat

/-- `setQuery` plus the `useEffect` with dependency `[query]` that resets the
selection to the top whenever the query text changes. -/
def applySetQuery (s : UiState) (q : String) : UiState :=
  if q = s.query then { s with query := q }
  else { s with query := q, app := { s.app with selectedIndex := 0 } }

/-- The `CREATE_TEMPLATE` document of `yaml.ts` (contents immaterial to the
claims; carried as the editor payload). -/
def getCreateTemplate : String :=
  "# Bitpop - New Login\n# Save and close to create. Delete all content to cancel.\n"

/-- `copyField` from `App`: resolve the active item (detail-selected first),
then the field value with its fallbacks; copy and arm the clipboard clear, or
report the absence. -/
def copyField (env : Env) (s : UiState) (field : String) :
    List Effect :=
  let results := searchResults s.app.items s.query s.sortMode
  let item? := match s.app.selectedItem with
    | some it => some it
    | none => (resultAt results s.app.selectedIndex).map
        (fun r => SearchResult.item r)
  match item? with
  | none => []
  | some item =>
    if s.app.session.isNone then []
    else
      let value : Option String :=
        if field = "username" then
          match item.login.bind (·.username) with
          | some u => some u
          | none =>
            match item.identity.bind (·.email) with
            | some e => some e
            | none => item.card.bind (·.cardholderName)
        else if field = "password" then
          match item.login.bind (·.password) with
          | some p => some p
          | none => item.card.bind (·.number)
        else if field = "totp" then
          match item.login.bind (·.totp) with
          | some t => if t ≠ "" then env.totpCode else none
          | none => none
        else none
      let fieldName :=
        if field = "username" then "Username"
        else if field = "password" then "Password"
        else "TOTP"
      match value with
      | none => [.showMessage ("No " ++ fieldName ++ " available")]
      | some v =>
        if v = "" then [.showMessage ("No " ++ fieldName ++ " available")]
        else
          [.copyClipboard v, .showMessage (fieldName ++ " copied!"),
           .scheduleClipboardClear s.app.config.clipboard_clear_seconds]

/-- `itemsEqual` from `yaml.ts`: the no-change detection between the original
item and the decoded edit. -/
def itemsEqual (original : BwItem) (edited : Yaml.ItemPatch) : Bool :=
  let origLogin := original.login.getD {}
  let origUris := origLogin.uris.getD []
  let editUris := edited.login.uris.getD []
  let origFields := original.fields.getD []
  original.name = edited.name &&
  original.favorite = edited.favorite &&
  original.reprompt = edited.reprompt &&
  original.notes.getD "" = edited.notes &&
  origLogin.username.getD "" = edited.login.username.getD "" &&
  origLogin.password.getD "" = edited.login.password.getD "" &&
  origLogin.totp.getD "" = edited.login.totp.getD "" &&
  origUris.length = editUris.length &&
  (origUris.zip editUris).all (fun p => p.1.uri = p.2.uri) &&
  origFields.length = edited.fields.length &&
  (origFields.zip edited.fields).all (fun p =>
    p.1.name = p.2.name &&
    p.1.value.getD "" = p.2.value.getD "" &&
    p.1.type = p.2.type)

/-- The `mergedItem` spread of `handleEdit`: the original item overridden by
every field `yamlToItem` sets, with the login objects merged (the decoded
login populates every login key, so it overrides them all). -/
def mergeForEdit (original : BwItem) (patch : Yaml.ItemPatch) : BwItem :=
  { original with
    type := patch.type
    name := patch.name
    favorite := patch.favorite
    reprompt := patch.reprompt
    notes := some patch.notes
    fields := some patch.fields
    login := some patch.login }

/-- `handleCreate` (up to the deferred mutation body): editor round trip,
cancellation and validation checks, then the switch to `processing`. -/
def handleCreate (env : Env) (s : UiState) : UiState × List Effect :=
  if s.app.session.isNone then (s, [])
  else
    let r := env.editorResult
    let ed : List Effect := [.openEditor getCreateTemplate "new-login.yaml"]
    if !r.success then (s, ed ++ [.showMessage ("Editor error: " ++ r.error)])
    else if r.cancelled || r.content.isNone || r.content = some "" then
      (s, ed ++ [.showMessage "Create cancelled"])
    else
      match Yaml.yamlToItem (r.content.getD "") with
      | none => (s, ed ++ [.showMessage "Invalid YAML or missing required fields"])
      | some _ =>
        ({ s with app := { s.app with mode := .processing } },
         ed ++ [.scheduleMutation])

/-- `handleEdit` (up to the deferred mutation body): reject non-Login items
with a message and no editor round trip; otherwise run the editor round trip,
the cancellation / validation / no-change checks, then switch to
`processing`. -/
def handleEdit (env : Env) (s : UiState) : UiState × List Effect :=
  if s.app.session.isNone || s.app.selectedItem.isNone then (s, [])
  else
    let item := (s.app.selectedItem).getD { id := "", type := 0, name := "" }
    if item.type ≠ cipherLogin then
      (s, [.showMessage "Only login items can be edited"])
    else
      let r := env.editorResult
      let ed : List Effect := [.openEditor (Yaml.itemToYaml item) "edit-login.yaml"]
      if !r.success then (s, ed ++ [.showMessage ("Editor error: " ++ r.error)])
      else if r.cancelled || r.content.isNone || r.content = some "" then
        (s, ed ++ [.showMessage "Edit cancelled"])
      else
        match Yaml.yamlToItem (r.content.getD "") with
        | none => (s, ed ++ [.showMessage "Invalid YAML or missing required fields"])
        | some patch =>
          if itemsEqual item patch then (s, ed ++ [.showMessage "No changes"])
          else
            ({ s with app := { s.app with mode := .processing } },
             ed ++ [.scheduleMutation])

/-- `handleEditConfig` (shortcut mode, Ctrl+E): open the editor on the config
file; reload the config on a clean exit. -/
def handleEditConfig (env : Env) (s : UiState) : UiState × List Effect :=
  if env.configEditStatus ≠ 0 then
    ({ s with app := { s.app with mode := .search } },
     [.openConfigEditor,
      .showMessage ("Editor exited with code " ++ toString env.configEditStatus)])
  else
    ({ s with app := { s.app with mode := .search, config := env.reloadedConfig } },
     [.openConfigEditor,
      .showMessage ("Config reloaded (" ++
        toString env.reloadedConfig.shortcuts.length ++ " shortcuts)")])

/-- The deferred body of the create mutation (`handleCreate`'s `setTimeout`):
create, then sync and re-list; a re-list failure keeps the current item list
and reports, the state returning to `search`. -/
def createContinuation (env : Env) (item : Yaml.ItemPatch) (s : UiState) :
    UiState × List Effect :=
  if !env.createSuccess then
    ({ s with app := { s.app with mode := .search } },
     [.createItemCall, .showMessage ("Create failed: " ++ env.createError)])
  else
    match env.listResult with
    | .ok items =>
      ({ s with app := { s.app with
          items := items
          selectedItem := env.createdItem
          mode := if env.createdItem.isSome then .detail else .search } },
       [.createItemCall, .syncVault, .listItemsCall,
        .showMessage ("Created: " ++ item.name)])
    | .error _ =>
      ({ s with app := { s.app with mode := .search } },
       [.createItemCall, .syncVault, .listItemsCall,
        .showMessage "Created but failed to refresh list"])

/-- The deferred body of the edit mutation (`handleEdit`'s `setTimeout`):
edit, then sync and re-list; a re-list failure keeps the current item list and
reports, the state returning to `detail`. -/
def editContinuation (env : Env) (selectedItemId : String) (merged : BwItem)
    (s : UiState) : UiState × List Effect :=
  if !env.editSuccess then
    ({ s with app := { s.app with mode := .detail } },
     [.editItemCall selectedItemId,
      .showMessage ("Edit failed: " ++ env.editError)])
  else
    match env.listResult with
    | .ok items =>
      ({ s with app := { s.app with
          items := items
          selectedItem := items.find? (fun i => i.id = selectedItemId)
          mode := .detail } },
       [.editItemCall selectedItemId, .syncVault, .listItemsCall,
        .showMessage ("Updated: " ++ merged.name)])
    | .error _ =>
      ({ s with app := { s.app with mode := .detail } },
       [.editItemCall selectedItemId, .syncVault, .listItemsCall,
        .showMessage "Updated but failed to refresh list"])

/-- The deferred body of the delete mutation (confirm-delete `y`): delete,
then re-list (no sync); a re-list failure keeps the current item list and
reports, the state returning to `search` with the selection reset. -/
def deleteContinuation (env : Env) (itemName itemId : String) (s : UiState) :
    UiState × List Effect :=
  if !env.deleteSuccess then
    ({ s with app := { s.app with mode := .detail } },
     [.deleteItemCall itemId,
      .showMessage ("Delete failed: " ++ env.deleteError)])
  else
    match env.listResult with
    | .ok items =>
      ({ s with app := { s.app with
          items := items
          selectedItem := none
          selectedIndex := 0
          mode := .search } },
       [.deleteItemCall itemId, .listItemsCall,
        .showMessage ("Moved to trash: " ++ itemName)])
    | .error _ =>
      ({ s with app := { s.app with
          mode := .search
          selectedItem := none
          selectedIndex := 0 } },
       [.deleteItemCall itemId, .listItemsCall,
        .showMessage "Deleted but failed to refresh list"])

end App

namespace App

open Bw Search

/-- `input` is a single digit `1`–`9`; its numeric value. -/
def digit19 (s : String) : Option Nat :=
  match s.data with
  | [c] => if '1' ≤ c && c ≤ '9' then some (c.toNat - '0'.toNat) else none
  | _ => none

/-- The `useInput` keyboard handler of `App` (source order preserved:
global quit combo; ignored modes; confirm-delete; Escape; Backspace/Delete;
shortcut mode; the search/detail common shortcuts; the search-mode
navigation).  `Effect.crashTypeError` marks the one place the handler
dereferences `results[selectedIndex].item` unguarded against an out-of-range
index, where JavaScript would throw a `TypeError`. -/
def handleInput (env : Env) (key : KeyEvent) (s : UiState) :
    UiState × List Effect :=
  let results := searchResults s.app.items s.query s.sortMode
  if key.ctrl && (key.input = "d" || key.input = "c") then
    (s, cleanupEffects s.app ++ [.exitApp])
  else if s.app.mode = .password || s.app.mode = .loading ||
      s.app.mode = .error || s.app.mode = .generate ||
      s.app.mode = .processing || s.app.mode = .exiting then
    (s, [])
  else if s.app.mode = .confirmDelete then
    match s.app.selectedItem with
    | some _item =>
      if jsToLower key.input = "y" && s.app.session.isSome then
        ({ s with app := { s.app with mode := .processing } },
         [.scheduleMutation])
      else
        ({ s with app := { s.app with mode := .detail } },
         [.showMessage "Delete cancelled"])
    | none =>
      ({ s with app := { s.app with mode := .detail } },
       [.showMessage "Delete cancelled"])
  else if key.escape then
    if s.app.mode = .detail then
      ({ s with app := { s.app with mode := .search, selectedItem := none } },
       [])
    else if s.app.mode = .shortcut then
      ({ s with app := { s.app with mode := .search } }, [])
    else
      ({ s with app := { s.app with mode := .exiting } }, [])
  else if (key.backspace || key.delete) && s.app.mode = .detail then
    ({ s with app := { s.app with mode := .search, selectedItem := none } },
     [])
  else if (key.backspace || key.delete) && s.app.mode = .shortcut then
    ({ s with app := { s.app with mode := .search } }, [])
  else if s.app.mode = .shortcut then
    if key.ctrl && key.input = "e" then handleEditConfig env s
    else
      match s.app.config.shortcuts.find?
          (fun sc => jsToLower sc.key = jsToLower key.input) with
      | some sc =>
        let s2 := applySetQuery s sc.search
        ({ s2 with app := { s2.app with mode := .search, selectedIndex := 0 } },
         [])
      | none => (s, [])
  else if (s.app.mode = .search || s.app.mode = .detail) &&
      key.ctrl && key.input = "u" then
    (s, copyField env s "username")
  else if (s.app.mode = .search || s.app.mode = .detail) &&
      key.ctrl && key.input = "p" then
    (s, copyField env s "password")
  else if (s.app.mode = .search || s.app.mode = .detail) &&
      key.ctrl && key.input = "t" then
    (s, copyField env s "totp")
  else if (s.app.mode = .search || s.app.mode = .detail) &&
      key.ctrl && key.input = "g" then
    ({ s with app := { s.app with
        mode := .generate, previousMode := some s.app.mode } }, [])
  else if (s.app.mode = .search || s.app.mode = .detail) &&
      key.ctrl && key.input = "x" then
    (applySetQuery s "", [])
  else if (s.app.mode = .search || s.app.mode = .detail) &&
      key.ctrl && key.input = "r" then
    if s.app.session.isNone then (s, [])
    else if !env.syncSuccess then
      (s, [.showMessage "Syncing...", .syncVault,
           .showMessage ("Sync failed: " ++ env.syncError)])
    else
      match env.listResult with
      | .ok items =>
        ({ s with app := { s.app with items := items } },
         [.showMessage "Syncing...", .syncVault, .listItemsCall,
          .showMessage ("Synced! " ++ toString items.length ++
            " items loaded")])
      | .error e =>
        (s, [.showMessage "Syncing...", .syncVault, .listItemsCall,
             .showMessage ("Refresh failed: " ++ e)])
  else if key.ctrl && key.input = "n" && s.app.mode = .search then
    handleCreate env s
  else if key.ctrl && key.input = "e" && s.app.mode = .detail then
    handleEdit env s
  else if key.input = "d" && s.app.mode = .detail && !key.ctrl then
    ({ s with app := { s.app with mode := .confirmDelete } }, [])
  else if s.app.mode = .search then
    if key.ctrl && key.input = "s" then
      ({ s with app := { s.app with mode := .shortcut } }, [])
    else if key.ctrl && key.input = "o" then
      ({ s with sortMode :=
          if s.sortMode = .default then .date else .default },
       [.showMessage (if s.sortMode = .default then "Sort: by date"
          else "Sort: by relevance")])
    else
      let maxVisible := s.app.config.max_visible_entries
      let scrollOffset : Int := max 0 (s.app.selectedIndex - maxVisible / 2)
      match digit19 key.input with
      | some d =>
        if key.meta then
          let actualIdx := scrollOffset + (d - 1 : Int)
          if actualIdx < (results.length : Int) then
            match resultAt results actualIdx with
            | some r =>
              ({ s with app := { s.app with
                  selectedIndex := actualIdx
                  selectedItem := some r.item
                  mode := .detail } }, [])
            | none => (s, [.crashTypeError])
          else (s, [])
        else (s, [])
      | none =>
        if key.meta && key.input = "0" then
          let actualIdx := scrollOffset + 9
          if actualIdx < (results.length : Int) then
            match resultAt results actualIdx with
            | some r =>
              ({ s with app := { s.app with
                  selectedIndex := actualIdx
                  selectedItem := some r.item
                  mode := .detail } }, [])
            | none => (s, [.crashTypeError])
          else (s, [])
        else if key.upArrow then
          ({ s with app := { s.app with
              selectedIndex := max 0 (s.app.selectedIndex - 1) } }, [])
        else if key.downArrow then
          ({ s with app := { s.app with
              selectedIndex := max 0 (min ((results.length : Int) - 1)
                (s.app.selectedIndex + 1)) } }, [])
        else if key.pageUp then
          ({ s with app := { s.app with
              selectedIndex := max 0 (s.app.selectedIndex - maxVisible / 2) } },
           [])
        else if key.pageDown then
          ({ s with app := { s.app with
              selectedIndex := min ((results.length : Int) - 1)
                (s.app.selectedIndex + maxVisible / 2) } }, [])
        else if key.returnKey && results.length > 0 then
          match resultAt results s.app.selectedIndex with
          | some r =>
            ({ s with app := { s.app with
                mode := .detail, selectedItem := some r.item } }, [])
          | none => (s, [.crashTypeError])
        else (s, [])
  else (s, [])

end App

/-! ## Auto-close timer (`App`'s timeout effect, `DetailView.tsx` 777–802)

The effect arms one `setTimeout(cleanup ∘ exit, auto_close_hours·3600000)`
when it runs — at mount, and again only when its dependencies (`cleanup`,
`exit`, `auto_close_hours`) change.  The `useInput` handler (lines 1109–1381)
contains no code referencing this timer, so keyboard activity leaves it
unchanged.  Wall-clock instants are milliseconds.
-/

namespace Clock

/-- The single armed auto-close timeout: it fires when the wall clock reaches
`target`. -/
structure AutoCloseTimer where
  target : Nat
deriving Repr, DecidableEq

/-- Arming the effect's `setTimeout` at wall-clock `now` for `timeoutMs`
milliseconds (mount, or a change of `auto_close_hours`). -/
def armAutoClose (now timeoutMs : Nat) : AutoCloseTimer :=
  { target := now + timeoutMs }

/-- An accepted keyboard input event: the input handler performs no
`clearTimeout`/`setTimeout` on the auto-close timer, so the timer state is
returned unchanged. -/
def onInputActivity (t : AutoCloseTimer) : AutoCloseTimer := t

/-- Whether the armed timeout fires at wall-clock instant `now`. -/
def firesAt (t : AutoCloseTimer) (now : Nat) : Bool := now = t.target

/-- Modelled from the spec: §4.3 Session Clock — the idle clock the claim
describes: `lastActivity` reset by `touch()` on every accepted input event.
No such structure exists in the implementation; this is the reference
behaviour the code is compared against. -/
structure IdleClock where
  lastActivity : Nat
deriving Repr, DecidableEq

/-- Modelled from the spec: `touch()` resets `lastActivity` to now. -/
def touch (_c : IdleClock) (now : Nat) : IdleClock :=
  { lastActivity := now }

/-- Modelled from the spec: `checkExpired(now)` — the elapsed wall-clock time
since the last accepted input exceeds the idle threshold. -/
def checkExpired (c : IdleClock) (idleThresholdMs now : Nat) : Bool :=
  idleThresholdMs < now - c.lastActivity

end Clock

/-! ## Claim-level definitions -/

namespace Yaml

open Bw

/-- Well-formedness of the notes for the editable surface: single-line notes
are emitted quoted-and-escaped; multiline notes are emitted as a literal
block, which survives the round trip through the block-indentation rules iff
no carriage return occurs, every line is empty or starts with a non-space
character, and some line is non-empty. -/
def notesSafe : Option String → Prop
  | none => True
  | some s =>
    '\r' ∉ s.data ∧
    ('\n' ∈ s.data →
      (∀ l ∈ splitNlOnly s.data, l.head? ≠ some ' ') ∧
      (∃ l ∈ splitNlOnly s.data, l ≠ []))

/-- The conditions under which the emitted document parses back exactly as
`expectedPatch` describes: the name has no line break (it is interpolated into
the header comment unescaped) and does not trim to blank (the required-name
check); every URI does not trim to blank (`yamlToItem` drops blank URIs);
every custom-field name does not trim to blank (blank-named fields are
dropped); and the notes satisfy `notesSafe`. -/
def ParseSafe (item : BwItem) : Prop :=
  '\n' ∉ item.name.data ∧
  '\r' ∉ item.name.data ∧
  jsTrim item.name ≠ "" ∧
  (∀ u ∈ (item.login.getD {}).uris.getD [], jsTrim u.uri ≠ "") ∧
  (∀ f ∈ item.fields.getD [], jsTrim f.name ≠ "") ∧
  notesSafe item.notes

/-- What `yamlToItem (itemToYaml item)` produces for a `ParseSafe` item: the
name, URIs and notes trimmed, absent login scalars replaced by `""`,
`reprompt` and the custom-field `type` collapsed through their boolean
surfaces. -/
def expectedPatch (item : BwItem) : ItemPatch :=
  let login := item.login.getD {}
  { type := 1
    name := jsTrim item.name
    login := { username := some (login.username.getD "")
               password := some (login.password.getD "")
               totp := some (login.totp.getD "")
               uris := some ((login.uris.getD []).map
                 (fun u => { uri := jsTrim u.uri })) }
    favorite := item.favorite
    reprompt := if item.reprompt = 1 then (1 : Int) else 0
    notes := jsTrim (item.notes.getD "")
    fields := (item.fields.getD []).map (fun f =>
      BwField.mk (jsTrim f.name) (some (f.value.getD ""))
        (if f.type = 1 then (1 : Int) else 0)) }

/-- The conditions under which the editable YAML surface reproduces a Login
item exactly: `ParseSafe`, plus the name, the URIs and the custom-field names
trim-invariant (`yamlToItem` trims them), every custom-field value present and
its type 0 or 1 (`hidden` is a boolean surface), and `reprompt` 0 or 1 (also a
boolean surface). -/
def EditRoundSafe (item : BwItem) : Prop :=
  item.type = cipherLogin ∧
  ParseSafe item ∧
  jsTrim item.name = item.name ∧
  (item.reprompt = 0 ∨ item.reprompt = 1) ∧
  (∀ u ∈ (item.login.getD {}).uris.getD [], jsTrim u.uri = u.uri) ∧
  (∀ f ∈ item.fields.getD [],
    jsTrim f.name = f.name ∧ f.value.isSome = true ∧
    (f.type = 0 ∨ f.type = 1))

/-- The login object of an item, defaulting as `item.login ?? {}`. -/
def loginOf (item : BwItem) : BwLogin := item.login.getD {}

/-- The URI strings of an item's login, in order. -/
def uriStrings (item : BwItem) : List String :=
  ((loginOf item).uris.getD []).map (·.uri)

/-- The URI strings of a decoded patch, in order. -/
def patchUriStrings (p : ItemPatch) : List String :=
  (p.login.uris.getD []).map (·.uri)

/-- The comparable core of a custom field: name, value (absent ≡ empty),
type. -/
def fieldCore (f : BwField) : String × String × Int :=
  (f.name, f.value.getD "", f.type)

/-- The concrete item of the round-trip counterexample: a Login whose name
carries a trailing space. -/
def ceItem : BwItem :=
  { id := "ce-1", type := 1, name := "A " }

/-- A concrete Login item satisfying `EditRoundSafe`, exercising embedded
quotes, backslashes and newlines in the protected value positions. -/
def wItem : BwItem :=
  { id := "w-1", type := 1, name := "My \"quoted\" login"
    notes := some "first line\nsecond \\ line"
    favorite := true
    reprompt := 1
    login := some
      { username := some "user\"name\\x"
        password := some "p w\nnl\ttab"
        totp := some "JBSWY3DP"
        uris := some [{ uri := "https://a.example" },
                      { uri := "https://b.example/path?q=1" }] }
    fields := some [{ name := "API Key", value := some "k:v\"w", type := 1 },
                    { name := "Plain", value := some "v2", type := 0 }] }

end Yaml

namespace App

/-- Fold a key-event sequence through the input handler (effects dropped). -/
def runKeys (env : Env) (keys : List KeyEvent) (s : UiState) : UiState :=
  keys.foldl (fun st k => (handleInput env k st).1) s

/-- Ten distinct Login items. -/
def tenItems : List Bw.BwItem :=
  (List.range 10).map (fun i =>
    { id := "id" ++ toString i, type := 1, name := "item" ++ toString i })

/-- Two distinct Login items (the shrunken vault returned by a refresh). -/
def twoItems : List Bw.BwItem :=
  [{ id := "id0", type := 1, name := "item0" },
   { id := "id1", type := 1, name := "item1" }]

/-- Search mode over the ten items, empty query, selection at the top. -/
def navState : UiState :=
  { app := { mode := .search, session := some "tok", items := tenItems } }

/-- A detail-mode state showing a Card item (for the edit-rejection claim). -/
def cardItem : Bw.BwItem :=
  { id := "card-1", type := 3, name := "Visa"
    card := some { cardholderName := some "J. Doe", number := some "4111" } }

def cardDetailState : UiState :=
  { app := { mode := .detail, session := some "tok", items := [cardItem]
             selectedItem := some cardItem } }

/-- An exiting-mode state holding a session (for the input-guard claims). -/
def exitingState : UiState :=
  { app := { mode := .exiting, session := some "tok", items := tenItems } }

end App

namespace Password

/-- The charset `generateRandomPassword` actually draws from: the union of
the enabled classes, or the lowercase+digits fallback when empty. -/
def effCharset (options : RandomPasswordOptions) : List Char :=
  if (enabledCharset options).length = 0 then LOWERCASE ++ NUMBERS
  else enabledCharset options

end Password

namespace Search

/-- The four-item collection of the spec's concrete search scenario. -/
def specItems : List Bw.BwItem :=
  [{ id := "1", type := 1, name := "GitHub Personal"
     login := some { uris := some [{ uri := "https://github.com" }] } },
   { id := "2", type := 1, name := "AWS Console"
     login := some { uris := some [{ uri := "https://console.aws.amazon.com" }] } },
   { id := "3", type := 1, name := "Zebra Mail"
     login := some { uris := some [{ uri := "https://mail.zebra.com" }] } },
   { id := "4", type := 1, name := "Amazon Shopping"
     login := some { uris := some [{ uri := "https://amazon.com" }] } }]

end Search

/-! # Theorems -/

/-! ## C9 — configuration loading -/

/-- **C9** (code bug).  The claim says loading never fails and that a
parseable file with every field missing yields the defaults.  The code throws:
for an existing config file whose text parses to `null` (an empty or
comment-only file), `validateConfig` evaluates `parsed.password_generation`
on `null` and raises a `TypeError`; only a parser *exception* falls back to
the defaults. -/
theorem c9_null_config_crashes :
    Cfg.loadConfig (.value .vnull) =
      .error "TypeError: Cannot read properties of null (reading 'password_generation')" ∧
    Cfg.loadConfig .parseError = .ok Cfg.DEFAULT_CONFIG :=
  ⟨rfl, rfl⟩

/-! ## C3 — idle auto-lock -/

/-- **C3** (code bug).  The claim (with CHANGELOG 0.1.1 and §4.3) says an
accepted keystroke resets the last-activity timestamp and postpones the lock.
The code arms a single absolute `setTimeout` whose dependencies do not include
input activity: with the default 4-hour threshold armed at `t = 0`, after a
keystroke at `t = 4h − 1ms` the timer still fires the lock at `t = 4h`, an
instant at which the claim's idle clock — touched by that keystroke — is not
expired. -/
theorem c3_autoclose_ignores_activity :
    (Clock.onInputActivity (Clock.armAutoClose 0 14400000)).target = 14400000 ∧
    Clock.firesAt (Clock.onInputActivity (Clock.armAutoClose 0 14400000))
      14400000 = true ∧
    Clock.checkExpired (Clock.touch { lastActivity := 0 } (14400000 - 1))
      14400000 14400000 = false := by
  refine ⟨rfl, by decide, by decide⟩

/-! ## C6 — password and passphrase generation -/

/-- **C6** (confirmed).  With randomness as a controlled input: a requested
passphrase of `N` words is the separator-join of exactly `max N 3` segments
(a request for 1 word yields 3); a requested random password of length `L`
with at least one class enabled has length exactly `L` and draws only from
the union of the enabled classes. -/
theorem generateRandomPassword_eq (rand : Nat → Nat)
    (options : Password.RandomPasswordOptions) :
    Password.generateRandomPassword rand options =
      String.mk ((List.range options.length).map (fun i =>
        (Password.effCharset options).getD
          (rand i % (Password.effCharset options).length) 'a')) := rfl

theorem effCharset_of_enabled (options : Password.RandomPasswordOptions)
    (hen : (options.uppercase || options.lowercase ||
            options.number || options.special) = true) :
    Password.effCharset options = Password.enabledCharset options ∧
    0 < (Password.enabledCharset options).length := by
  have hpos : 0 < (Password.enabledCharset options).length := by
    rcases Bool.or_eq_true_iff.mp hen with h | h
    · rcases Bool.or_eq_true_iff.mp h with h | h
      · rcases Bool.or_eq_true_iff.mp h with h | h <;>
          simp [Password.enabledCharset, h, Password.UPPERCASE,
            Password.LOWERCASE]
      · simp [Password.enabledCharset, h, Password.NUMBERS]
    · simp [Password.enabledCharset, h, Password.SPECIAL]
  exact ⟨by simp [Password.effCharset, Nat.pos_iff_ne_zero.mp hpos], hpos⟩

theorem getD_mod_mem (cs : List Char) (h : 0 < cs.length) (k : Nat) :
    cs.getD (k % cs.length) 'a' ∈ cs := by
  have hlt : k % cs.length < cs.length := Nat.mod_lt k h
  rw [List.getD_eq_getElem cs 'a' hlt]
  exact List.getElem_mem hlt

/-- **C6** (confirmed).  With randomness as a controlled input: a requested
passphrase of `N` words is the separator-join of exactly `max N 3` segments
(a request for 1 word yields 3); a requested random password of length `L`
with at least one class enabled has length exactly `L` and draws only from
the union of the enabled classes. -/
theorem c6_generation_properties :
    (∀ (wordsSource : Nat → List String) (rng : Nat → Nat × Nat)
       (options : Password.PassphraseOptions),
       (wordsSource (max 3 options.words)).length = max 3 options.words →
       ∃ segs : List String, segs.length = max 3 options.words ∧
         Password.generatePassphrase wordsSource rng options =
           String.intercalate options.separator segs) ∧
    (∀ (rand : Nat → Nat) (options : Password.RandomPasswordOptions),
       (options.uppercase || options.lowercase ||
        options.number || options.special) = true →
       (Password.generateRandomPassword rand options).length = options.length ∧
       ∀ c ∈ (Password.generateRandomPassword rand options).data,
         c ∈ Password.enabledCharset options) := by
  constructor
  · intro wordsSource rng options hlen
    refine ⟨_, ?_, rfl⟩
    simp only [List.length_map, List.enum_length]
    exact hlen
  · intro rand options hen
    obtain ⟨hcs, hpos⟩ := effCharset_of_enabled options hen
    rw [generateRandomPassword_eq]
    constructor
    · simp [String.length]
    · intro c hc
      simp only [List.mem_map, List.mem_range] at hc
      obtain ⟨i, _, rfl⟩ := hc
      rw [hcs]
      exact getD_mod_mem _ hpos _

/-- Witness for C6 at concrete inputs: a 1-word request yields 3 segments;
a 12-character lowercase-only password has length 12 over the lowercase
class. -/
theorem c6_generation_properties_witness :
    (∃ segs : List String, segs.length = max 3 1 ∧
       Password.generatePassphrase (fun n => List.replicate n "word")
         (fun _ => (1, 7)) { words := 1
                             separator := "-"
                             capitalize := true
                             includeNumber := true } =
         String.intercalate "-" segs) ∧
    ((Password.generateRandomPassword (fun i => 5 * i + 3)
        { length := 12
          uppercase := false
          lowercase := true
          number := false
          special := false }).length = 12 ∧
     ∀ c ∈ (Password.generateRandomPassword (fun i => 5 * i + 3)
        { length := 12
          uppercase := false
          lowercase := true
          number := false
          special := false }).data,
       c ∈ Password.enabledCharset { length := 12
                                     uppercase := false
                                     lowercase := true
                                     number := false
                                     special := false }) :=
  ⟨c6_generation_properties.1 (fun n => List.replicate n "word")
      (fun _ => (1, 7))
      { words := 1
        separator := "-"
        capitalize := true
        includeNumber := true } (by simp),
   c6_generation_properties.2 (fun i => 5 * i + 3)
      { length := 12
        uppercase := false
        lowercase := true
        number := false
        special := false } (by decide)⟩

/-! ## C10 — fallback charset -/

/-- **C10** (confirmed).  With all four character classes disabled,
`generateRandomPassword` still produces a password of the requested length,
drawn from the lowercase+digits fallback charset (in particular it is nonempty
for a positive requested length). -/
theorem c10_fallback_charset (rand : Nat → Nat)
    (options : Password.RandomPasswordOptions)
    (h : options.uppercase = false ∧ options.lowercase = false ∧
         options.number = false ∧ options.special = false) :
    (Password.generateRandomPassword rand options).length = options.length ∧
    (∀ c ∈ (Password.generateRandomPassword rand options).data,
       c ∈ Password.LOWERCASE ++ Password.NUMBERS) ∧
    (0 < options.length → Password.generateRandomPassword rand options ≠ "") := by
  obtain ⟨h1, h2, h3, h4⟩ := h
  have hcs : Password.effCharset options = Password.LOWERCASE ++ Password.NUMBERS := by
    simp [Password.effCharset, Password.enabledCharset, h1, h2, h3, h4]
  have hpos : 0 < (Password.effCharset options).length := by
    rw [hcs]; simp [Password.LOWERCASE, Password.NUMBERS]
  rw [generateRandomPassword_eq]
  refine ⟨by simp [String.length], ?_, ?_⟩
  · intro c hc
    simp only [List.mem_map, List.mem_range] at hc
    obtain ⟨i, _, rfl⟩ := hc
    rw [← hcs]
    exact getD_mod_mem _ hpos _
  · intro hlen heq
    have : ((List.range options.length).map (fun i =>
        (Password.effCharset options).getD
          (rand i % (Password.effCharset options).length) 'a')).length = 0 := by
      rw [show (List.range options.length).map (fun i =>
        (Password.effCharset options).getD
          (rand i % (Password.effCharset options).length) 'a') =
          String.data (String.mk _) from rfl, heq]
      rfl
    simp at this
    omega

/-- Witness for C10 at a concrete input. -/
theorem c10_fallback_charset_witness :
    (Password.generateRandomPassword (fun i => 3 * i)
       { length := 5
         uppercase := false
         lowercase := false
         number := false
         special := false }).length = 5 ∧
    (∀ c ∈ (Password.generateRandomPassword (fun i => 3 * i)
       { length := 5
         uppercase := false
         lowercase := false
         number := false
         special := false }).data,
       c ∈ Password.LOWERCASE ++ Password.NUMBERS) ∧
    (0 < 5 → Password.generateRandomPassword (fun i => 3 * i)
       { length := 5
         uppercase := false
         lowercase := false
         number := false
         special := false } ≠ "") :=
  c10_fallback_charset (fun i => 3 * i) _ ⟨rfl, rfl, rfl, rfl⟩

/-! ## C7 — editing a non-Login item -/

/-- **C7** (confirmed).  With a non-Login item detailed, Ctrl+E performs no
editor round trip and no vault-agent call: the handler returns the state
unchanged (mode still `detail`, same selected item, same item collection) and
its only effect is the transient "Only login items can be edited" message. -/
theorem c7_edit_non_login_noop (env : App.Env) (key : App.KeyEvent)
    (s : App.UiState) (item : Bw.BwItem) (sess : String)
    (hmode : s.app.mode = .detail) (hsel : s.app.selectedItem = some item)
    (hsess : s.app.session = some sess) (htype : item.type ≠ Bw.cipherLogin)
    (hkey : key = { input := "e", ctrl := true }) :
    App.handleInput env key s =
      (s, [.showMessage "Only login items can be edited"]) := by
  subst hkey
  simp [App.handleInput, App.handleEdit, hmode, hsel, hsess, htype]

/-- Witness for C7: a concrete Card item in detail mode. -/
theorem c7_edit_non_login_noop_witness :
    App.handleInput {} { input := "e", ctrl := true } App.cardDetailState =
      (App.cardDetailState,
       [.showMessage "Only login items can be edited"]) :=
  c7_edit_non_login_noop {} _ App.cardDetailState App.cardItem "tok"
    rfl rfl rfl (by decide) rfl

/-! ## C4 — input in Processing / Exiting / Loading -/

/-- Counterexample to **C4** as stated: in `exiting` mode the global quit
combination Ctrl+D is *not* ignored — it is handled before the mode guard and
immediately issues the vault-agent lock call and the exit, skipping the
pre-exit UI-paint delay. -/
theorem c4_quit_combo_not_ignored_counterexample :
    App.handleInput {} { input := "d", ctrl := true } App.exitingState =
      (App.exitingState, [.lockVault, .exitApp]) ∧
    [App.Effect.lockVault, App.Effect.exitApp] ≠ ([] : List App.Effect) :=
  ⟨rfl, by decide⟩

/-- **C4** (corrected).  In `processing`, `exiting` or `loading` mode, every
keyboard input event *other than the global quit combination (Ctrl+D /
Ctrl+C)* is ignored: no state change and no effect.  (The quit combination is
handled before the mode guard and performs the same lock-and-exit.) -/
theorem c4_input_ignored_amended (env : App.Env) (key : App.KeyEvent)
    (s : App.UiState)
    (hmode : s.app.mode = .processing ∨ s.app.mode = .exiting ∨
             s.app.mode = .loading)
    (hkey : ¬(key.ctrl = true ∧ (key.input = "d" ∨ key.input = "c"))) :
    App.handleInput env key s = (s, []) := by
  have h1 : (key.ctrl && (decide (key.input = "d") ||
      decide (key.input = "c"))) = false := by
    cases hc : key.ctrl
    · simp
    · have : ¬(key.input = "d" ∨ key.input = "c") := fun hor => hkey ⟨hc, hor⟩
      push_neg at this
      simp [this.1, this.2]
  rcases hmode with h | h | h <;> simp [App.handleInput, h, h1]

/-- Witness for C4 (amended): an ordinary keystroke in `exiting` mode is a
no-op. -/
theorem c4_input_ignored_amended_witness :
    App.handleInput {} { input := "x" } App.exitingState =
      (App.exitingState, []) :=
  c4_input_ignored_amended {} { input := "x" } App.exitingState
    (Or.inr (Or.inl rfl)) (by decide)

/-! ## C8 — re-list failure after a successful mutation -/

/-- **C8** (confirmed).  When the re-list after a successful create / edit /
delete fails, each deferred mutation body keeps the in-memory item collection
unchanged, surfaces the corresponding "…but failed to refresh list" warning,
and returns to a working mode (`search` or `detail`), not an error mode. -/
theorem c8_refresh_failure_keeps_snapshot (env : App.Env) (s : App.UiState)
    (patch : Yaml.ItemPatch) (itemName itemId : String) (merged : Bw.BwItem)
    (e : String) (hlist : env.listResult = .error e)
    (hc : env.createSuccess = true) (he : env.editSuccess = true)
    (hd : env.deleteSuccess = true) :
    ((App.createContinuation env patch s).1.app.items = s.app.items ∧
     (App.createContinuation env patch s).1.app.mode = .search ∧
     App.Effect.showMessage "Created but failed to refresh list" ∈
       (App.createContinuation env patch s).2) ∧
    ((App.editContinuation env itemId merged s).1.app.items = s.app.items ∧
     (App.editContinuation env itemId merged s).1.app.mode = .detail ∧
     App.Effect.showMessage "Updated but failed to refresh list" ∈
       (App.editContinuation env itemId merged s).2) ∧
    ((App.deleteContinuation env itemName itemId s).1.app.items = s.app.items ∧
     (App.deleteContinuation env itemName itemId s).1.app.mode = .search ∧
     App.Effect.showMessage "Deleted but failed to refresh list" ∈
       (App.deleteContinuation env itemName itemId s).2) := by
  refine ⟨?_, ?_, ?_⟩ <;>
    simp [App.createContinuation, App.editContinuation,
      App.deleteContinuation, hlist, hc, he, hd]

/-- Witness for C8 at concrete inputs. -/
theorem c8_refresh_failure_keeps_snapshot_witness :
    ((App.createContinuation { listResult := .error "boom" } { type := 1, name := "n", login := {}, favorite := false, reprompt := 0, notes := "", fields := [] } App.navState).1.app.items =
      App.navState.app.items ∧
     (App.createContinuation { listResult := .error "boom" } { type := 1, name := "n", login := {}, favorite := false, reprompt := 0, notes := "", fields := [] } App.navState).1.app.mode = .search ∧
     App.Effect.showMessage "Created but failed to refresh list" ∈
       (App.createContinuation { listResult := .error "boom" } { type := 1, name := "n", login := {}, favorite := false, reprompt := 0, notes := "", fields := [] } App.navState).2) ∧
    ((App.editContinuation { listResult := .error "boom" } "id0"
        App.cardItem App.navState).1.app.items = App.navState.app.items ∧
     (App.editContinuation { listResult := .error "boom" } "id0"
        App.cardItem App.navState).1.app.mode = .detail ∧
     App.Effect.showMessage "Updated but failed to refresh list" ∈
       (App.editContinuation { listResult := .error "boom" } "id0"
        App.cardItem App.navState).2) ∧
    ((App.deleteContinuation { listResult := .error "boom" } "Visa" "id0"
        App.navState).1.app.items = App.navState.app.items ∧
     (App.deleteContinuation { listResult := .error "boom" } "Visa" "id0"
        App.navState).1.app.mode = .search ∧
     App.Effect.showMessage "Deleted but failed to refresh list" ∈
       (App.deleteContinuation { listResult := .error "boom" } "Visa" "id0"
        App.navState).2) :=
  c8_refresh_failure_keeps_snapshot { listResult := .error "boom" }
    App.navState _ "Visa" "id0" App.cardItem "boom" rfl rfl rfl rfl

/-! ## C2 — selection-index invariant -/

/-- **C2** (code bug).  The claim (and §4.4) says the selection index is
re-clamped into `[0, results.length)` after any result-count change,
including the sync-and-refresh that replaces the item list.  The code's
Ctrl+R path replaces `items` without touching `selectedIndex`: after nine
Down presses over ten results (index 9) and a refresh that shrinks the vault
to two items, the index remains 9 ≥ 2 — and the unguarded
`results[selectedIndex].item` dereference on Enter is the modelled
`TypeError`. -/
theorem c2_selection_out_of_bounds_after_refresh :
    (App.runKeys {} (List.replicate 9 { downArrow := true })
        App.navState).app.selectedIndex = 9 ∧
    ((App.handleInput { listResult := .ok App.twoItems }
        { input := "r", ctrl := true }
        (App.runKeys {} (List.replicate 9 { downArrow := true })
          App.navState)).1.app.selectedIndex = 9 ∧
     (Search.searchResults
        (App.handleInput { listResult := .ok App.twoItems }
          { input := "r", ctrl := true }
          (App.runKeys {} (List.replicate 9 { downArrow := true })
            App.navState)).1.app.items "" .default).length = 2 ∧
     ¬((App.handleInput { listResult := .ok App.twoItems }
          { input := "r", ctrl := true }
          (App.runKeys {} (List.replicate 9 { downArrow := true })
            App.navState)).1.app.selectedIndex < (2 : Int)) ∧
     (App.handleInput {} { returnKey := true }
        (App.handleInput { listResult := .ok App.twoItems }
          { input := "r", ctrl := true }
          (App.runKeys {} (List.replicate 9 { downArrow := true })
            App.navState)).1).2 = [.crashTypeError]) := by
  decide

/-! ## C5 — empty-query search -/

namespace Search

theorem cmpChar_swap (a b : Char) : cmpChar b a = (cmpChar a b).swap := by
  unfold cmpChar
  rcases Nat.lt_trichotomy a.toNat b.toNat with h | h | h
  · simp [h, Nat.lt_asymm h, Ordering.swap]
  · simp [h, Nat.lt_irrefl, Ordering.swap]
  · simp [h, Nat.lt_asymm h, Ordering.swap]

theorem cmpCharList_swap (a b : List Char) :
    cmpCharList b a = (cmpCharList a b).swap := by
  induction a generalizing b with
  | nil => cases b <;> simp [cmpCharList, Ordering.swap]
  | cons x xs ih =>
    cases b with
    | nil => simp [cmpCharList, Ordering.swap]
    | cons y ys =>
      simp [cmpCharList, Ordering.swap_then, cmpChar_swap x y, ih]

theorem cmpChar_lt_iff (a b : Char) :
    cmpChar a b = .lt ↔ a.toNat < b.toNat := by
  unfold cmpChar
  rcases Nat.lt_trichotomy a.toNat b.toNat with h | h | h <;>
    simp [h, Nat.lt_asymm, Nat.lt_irrefl]

theorem cmpChar_eq_iff (a b : Char) :
    cmpChar a b = .eq ↔ a.toNat = b.toNat := by
  unfold cmpChar
  rcases Nat.lt_trichotomy a.toNat b.toNat with h | h | h <;>
    simp [h, Nat.lt_asymm, Nat.lt_irrefl] <;> omega

theorem cmpCharList_lt_trans {a b c : List Char}
    (hab : cmpCharList a b = .lt) (hbc : cmpCharList b c = .lt) :
    cmpCharList a c = .lt := by
  induction a generalizing b c with
  | nil =>
    cases b with
    | nil => simp [cmpCharList] at hab
    | cons y ys => cases c with
      | nil => simp [cmpCharList] at hbc
      | cons z zs => simp [cmpCharList]
  | cons x xs ih =>
    cases b with
    | nil => simp [cmpCharList] at hab
    | cons y ys =>
      cases c with
      | nil => simp [cmpCharList] at hbc
      | cons z zs =>
        simp only [cmpCharList, Ordering.then_eq_lt] at hab hbc ⊢
        rcases hab with h1 | ⟨h1, h1t⟩
        · rcases hbc with h2 | ⟨h2, h2t⟩
          · exact Or.inl ((cmpChar_lt_iff _ _).mpr
              (Nat.lt_trans ((cmpChar_lt_iff _ _).mp h1)
                ((cmpChar_lt_iff _ _).mp h2)))
          · exact Or.inl ((cmpChar_lt_iff _ _).mpr
              (((cmpChar_eq_iff _ _).mp h2) ▸ (cmpChar_lt_iff _ _).mp h1))
        · rcases hbc with h2 | ⟨h2, h2t⟩
          · exact Or.inl ((cmpChar_lt_iff _ _).mpr
              (((cmpChar_eq_iff _ _).mp h1) ▸ (cmpChar_lt_iff _ _).mp h2))
          · exact Or.inr ⟨(cmpChar_eq_iff _ _).mpr
              (((cmpChar_eq_iff _ _).mp h1).trans ((cmpChar_eq_iff _ _).mp h2)),
              ih h1t h2t⟩

theorem cmpCharList_eq_trans {a b c : List Char}
    (hab : cmpCharList a b = .eq) (hbc : cmpCharList b c = .eq) :
    cmpCharList a c = .eq := by
  induction a generalizing b c with
  | nil =>
    cases b with
    | nil => cases c <;> simp_all [cmpCharList]
    | cons y ys => simp [cmpCharList] at hab
  | cons x xs ih =>
    cases b with
    | nil => simp [cmpCharList] at hab
    | cons y ys =>
      cases c with
      | nil => simp [cmpCharList] at hbc
      | cons z zs =>
        simp only [cmpCharList, Ordering.then_eq_eq] at hab hbc ⊢
        exact ⟨(cmpChar_eq_iff _ _).mpr
          (((cmpChar_eq_iff _ _).mp hab.1).trans ((cmpChar_eq_iff _ _).mp hbc.1)),
          ih hab.2 hbc.2⟩

theorem cmpCharList_lt_of_lt_of_eq {a b c : List Char}
    (hab : cmpCharList a b = .lt) (hbc : cmpCharList b c = .eq) :
    cmpCharList a c = .lt := by
  induction a generalizing b c with
  | nil =>
    cases b with
    | nil => simp [cmpCharList] at hab
    | cons y ys => cases c with
      | nil => simp [cmpCharList] at hbc
      | cons z zs => simp [cmpCharList]
  | cons x xs ih =>
    cases b with
    | nil => simp [cmpCharList] at hab
    | cons y ys =>
      cases c with
      | nil => simp [cmpCharList] at hbc
      | cons z zs =>
        simp only [cmpCharList, Ordering.then_eq_lt, Ordering.then_eq_eq]
          at hab hbc ⊢
        rcases hab with h1 | ⟨h1, h1t⟩
        · exact Or.inl ((cmpChar_lt_iff _ _).mpr
            (((cmpChar_eq_iff _ _).mp hbc.1) ▸ (cmpChar_lt_iff _ _).mp h1))
        · exact Or.inr ⟨(cmpChar_eq_iff _ _).mpr
            (((cmpChar_eq_iff _ _).mp h1).trans ((cmpChar_eq_iff _ _).mp hbc.1)),
            ih h1t hbc.2⟩

theorem cmpCharList_lt_of_eq_of_lt {a b c : List Char}
    (hab : cmpCharList a b = .eq) (hbc : cmpCharList b c = .lt) :
    cmpCharList a c = .lt := by
  induction a generalizing b c with
  | nil =>
    cases b with
    | nil => cases c <;> simp_all [cmpCharList]
    | cons y ys => simp [cmpCharList] at hab
  | cons x xs ih =>
    cases b with
    | nil => simp [cmpCharList] at hab
    | cons y ys =>
      cases c with
      | nil => simp [cmpCharList] at hbc
      | cons z zs =>
        simp only [cmpCharList, Ordering.then_eq_lt, Ordering.then_eq_eq]
          at hab hbc ⊢
        rcases hbc with h2 | ⟨h2, h2t⟩
        · exact Or.inl ((cmpChar_lt_iff _ _).mpr
            (((cmpChar_eq_iff _ _).mp hab.1) ▸ (cmpChar_lt_iff _ _).mp h2))
        · exact Or.inr ⟨(cmpChar_eq_iff _ _).mpr
            (((cmpChar_eq_iff _ _).mp hab.1).trans ((cmpChar_eq_iff _ _).mp h2)),
            ih hab.2 h2t⟩

/-- `a.localeCompare(b) ≤ 0` is exactly "the collation does not order `a`
after `b`". -/
theorem localeCompare_nonpos_iff (a b : String) :
    localeCompare a b ≤ 0 ↔
      (cmpCharList (jsToLower a).data (jsToLower b).data).then
        (cmpCharList a.data b.data) ≠ .gt := by
  cases h : (cmpCharList (jsToLower a).data (jsToLower b).data).then
      (cmpCharList a.data b.data) <;>
    simp [localeCompare, h]

theorem collThen_swap (a b : String) :
    (cmpCharList (jsToLower b).data (jsToLower a).data).then
      (cmpCharList b.data a.data) =
    ((cmpCharList (jsToLower a).data (jsToLower b).data).then
      (cmpCharList a.data b.data)).swap := by
  rw [Ordering.swap_then, ← cmpCharList_swap, ← cmpCharList_swap]

theorem localeCompare_le_total (a b : String) :
    localeCompare a b ≤ 0 ∨ localeCompare b a ≤ 0 := by
  rw [localeCompare_nonpos_iff, localeCompare_nonpos_iff]
  by_cases h : (cmpCharList (jsToLower a).data (jsToLower b).data).then
      (cmpCharList a.data b.data) = .gt
  · right
    rw [collThen_swap, h]
    simp [Ordering.swap]
  · exact Or.inl h

theorem localeCompare_le_trans {a b c : String}
    (hab : localeCompare a b ≤ 0) (hbc : localeCompare b c ≤ 0) :
    localeCompare a c ≤ 0 := by
  rw [localeCompare_nonpos_iff] at hab hbc ⊢
  rcases h1 : cmpCharList (jsToLower a).data (jsToLower b).data
    with _ | _ | _ <;>
  rcases h2 : cmpCharList (jsToLower b).data (jsToLower c).data
    with _ | _ | _
  · simp [Ordering.then, cmpCharList_lt_trans h1 h2]
  · simp [Ordering.then, cmpCharList_lt_of_lt_of_eq h1 h2]
  · rw [h2] at hbc; simp [Ordering.then] at hbc
  · simp [Ordering.then, cmpCharList_lt_of_eq_of_lt h1 h2]
  · have hac := cmpCharList_eq_trans h1 h2
    rw [h1] at hab
    rw [h2] at hbc
    simp only [Ordering.then] at hab hbc
    rw [hac]
    simp only [Ordering.then]
    rcases q1 : cmpCharList a.data b.data with _ | _ | _ <;>
      rcases q2 : cmpCharList b.data c.data with _ | _ | _
    · simp [cmpCharList_lt_trans q1 q2]
    · simp [cmpCharList_lt_of_lt_of_eq q1 q2]
    · rw [q2] at hbc; simp at hbc
    · simp [cmpCharList_lt_of_eq_of_lt q1 q2]
    · simp [cmpCharList_eq_trans q1 q2]
    · rw [q2] at hbc; simp at hbc
    · rw [q1] at hab; simp at hab
    · rw [q1] at hab; simp at hab
    · rw [q1] at hab; simp at hab
  · rw [h2] at hbc; simp [Ordering.then] at hbc
  · rw [h1] at hab; simp [Ordering.then] at hab
  · rw [h1] at hab; simp [Ordering.then] at hab
  · rw [h1] at hab; simp [Ordering.then] at hab

end Search

/-- **C5** (confirmed).  For a non-empty item collection and an empty or
whitespace-only query, the default-mode search returns exactly one result per
input item (a permutation of the items, so the full count), each with score 0,
sorted ascending by display name under the `localeCompare` collation; and the
computation is a pure function of its inputs, so repeated calls return the
identical ordering. -/
theorem c5_empty_query_search (items : List Bw.BwItem) (query : String)
    (_hne : items ≠ []) (hq : jsTrim query = "") :
    (Search.searchResults items query .default).length = items.length ∧
    (Search.searchResults items query .default).Perm
      (items.map (fun item => ⟨item, 0⟩)) ∧
    (∀ r ∈ Search.searchResults items query .default, r.score = 0) ∧
    (Search.searchResults items query .default).Pairwise
      (fun a b => Search.localeCompare a.item.name b.item.name ≤ 0) ∧
    Search.searchResults items query .default =
      Search.searchResults items query .default := by
  have hres : Search.searchResults items query .default =
      (items.map (fun item => ⟨item, 0⟩)).insertionSort
        (fun a b : Search.SearchResult =>
          Search.localeCompare a.item.name b.item.name ≤ 0) := by
    simp [Search.searchResults, Search.jsSortBy, hq]
  haveI htot : IsTotal Search.SearchResult
      (fun a b => Search.localeCompare a.item.name b.item.name ≤ 0) :=
    ⟨fun a b => Search.localeCompare_le_total a.item.name b.item.name⟩
  haveI htrans : IsTrans Search.SearchResult
      (fun a b => Search.localeCompare a.item.name b.item.name ≤ 0) :=
    ⟨fun _ _ _ hab hbc => Search.localeCompare_le_trans hab hbc⟩
  have hperm := List.perm_insertionSort
    (fun a b : Search.SearchResult =>
      Search.localeCompare a.item.name b.item.name ≤ 0)
    (items.map (fun item => ⟨item, 0⟩))
  rw [hres]
  refine ⟨?_, hperm, ?_, ?_, rfl⟩
  · rw [hperm.length_eq, List.length_map]
  · intro r hr
    have hr2 := hperm.mem_iff.mp hr
    simp only [List.mem_map] at hr2
    obtain ⟨it, _, rfl⟩ := hr2
    rfl
  · exact List.sorted_insertionSort _ _

/-- Witness for C5: the spec's concrete four-item scenario with the empty
query — four results, scores 0, names in collation order
`["Amazon Shopping", "AWS Console", "GitHub Personal", "Zebra Mail"]`. -/
theorem c5_empty_query_search_witness :
    ((Search.searchResults Search.specItems "" .default).length =
       Search.specItems.length ∧
     (Search.searchResults Search.specItems "" .default).Perm
       (Search.specItems.map (fun item => ⟨item, 0⟩)) ∧
     (∀ r ∈ Search.searchResults Search.specItems "" .default, r.score = 0) ∧
     (Search.searchResults Search.specItems "" .default).Pairwise
       (fun a b => Search.localeCompare a.item.name b.item.name ≤ 0) ∧
     Search.searchResults Search.specItems "" .default =
       Search.searchResults Search.specItems "" .default) ∧
    (Search.searchResults Search.specItems "" .default).map
      (fun r => r.item.name) =
      ["Amazon Shopping", "AWS Console", "GitHub Personal", "Zebra Mail"] :=
  ⟨c5_empty_query_search Search.specItems "" (by decide) (by decide),
   by decide⟩

/-! ## C1 — YAML round trip -/


namespace Yaml

open Bw

theorem optStrTruthy_iff (o : Option String) :
    optStrTruthy o = true ↔ o.getD "" ≠ "" := by
  cases o with
  | none => simp [optStrTruthy]
  | some s => simp [optStrTruthy, strTruthy]

theorem jsTrimRightL_eq_nil {l : List Char} (h : jsTrimRightL l = []) :
    ∀ c ∈ l, isJsSpace c = true := by
  unfold jsTrimRightL at h
  rw [List.reverse_eq_nil_iff, List.dropWhile_eq_nil_iff] at h
  intro c hc
  exact h c (List.mem_reverse.mpr hc)

theorem jsTrimL_all_space {l : List Char} (h : jsTrimL l = []) :
    ∀ c ∈ l, isJsSpace c = true := by
  intro c hc
  rw [← List.takeWhile_append_dropWhile (p := isJsSpace) (l := l)] at hc
  rcases List.mem_append.mp hc with h1 | h2
  · exact List.mem_takeWhile_imp h1
  · exact jsTrimRightL_eq_nil h c h2

theorem jsTrim_ne_empty {s : String} {c : Char} (hc : c ∈ s.data)
    (hs : isJsSpace c = false) : jsTrim s ≠ "" := by
  intro h
  have hdata : jsTrimL s.data = [] := congrArg String.data h
  rw [jsTrimL_all_space hdata c hc] at hs
  cases hs

/-! Escaping and unescaping. -/

theorem jsEscape_nil : jsEscape [] = [] := rfl

theorem jsEscape_cons (c : Char) (cs : List Char) :
    jsEscape (c :: cs) = jsEscapeChar c ++ jsEscape cs := by
  simp [jsEscape]

theorem mem_jsEscapeChar {c d : Char} (h : d ∈ jsEscapeChar c) :
    d ≠ '\n' ∧ d ≠ '\r' := by
  unfold jsEscapeChar at h
  by_cases h1 : c = '\\' <;> by_cases h2 : c = '"' <;>
    by_cases h3 : c = '\n' <;> by_cases h4 : c = '\r' <;>
    by_cases h5 : c = '\t' <;>
    simp [h1, h2, h3, h4, h5] at h <;>
    first
    | (subst h; exact ⟨by decide, by decide⟩)
    | (rcases h with rfl | rfl <;> exact ⟨by decide, by decide⟩)
    | (subst h; exact ⟨h3, h4⟩)

theorem mem_jsEscape {l : List Char} {d : Char} (h : d ∈ jsEscape l) :
    d ≠ '\n' ∧ d ≠ '\r' := by
  induction l with
  | nil => cases h
  | cons c cs ih =>
    rw [jsEscape_cons] at h
    rcases List.mem_append.mp h with h1 | h2
    · exact mem_jsEscapeChar h1
    · exact ih h2

theorem qstr_quote (rest : List Char) :
    qstr ('"' :: rest) = some ([], rest) := by
  rw [qstr.eq_def]; rfl

theorem qstr_plain {c : Char} (l : List Char) (h1 : ¬c = '"')
    (h2 : ¬c = '\\') :
    qstr (c :: l) = (qstr l).map (fun p => (c :: p.1, p.2)) := by
  rw [qstr.eq_def]; simp [h1, h2]

theorem qstr_escape (s rest : List Char) :
    qstr (jsEscape s ++ '"' :: rest) = some (s, rest) := by
  induction s with
  | nil => rw [jsEscape_nil, List.nil_append, qstr_quote]
  | cons c cs ih =>
    rw [jsEscape_cons, List.append_assoc]
    by_cases h1 : c = '\\'
    · subst h1
      rw [show jsEscapeChar '\\' ++ (jsEscape cs ++ '"' :: rest) =
          '\\' :: '\\' :: (jsEscape cs ++ '"' :: rest) from rfl,
        qstr.eq_def]
      simp [ih]
    · by_cases h2 : c = '"'
      · subst h2
        rw [show jsEscapeChar '"' ++ (jsEscape cs ++ '"' :: rest) =
            '\\' :: '"' :: (jsEscape cs ++ '"' :: rest) from rfl,
          qstr.eq_def]
        simp [ih]
      · by_cases h3 : c = '\n'
        · subst h3
          rw [show jsEscapeChar '\n' ++ (jsEscape cs ++ '"' :: rest) =
              '\\' :: 'n' :: (jsEscape cs ++ '"' :: rest) from rfl,
            qstr.eq_def]
          simp [ih]
        · by_cases h4 : c = '\r'
          · subst h4
            rw [show jsEscapeChar '\r' ++ (jsEscape cs ++ '"' :: rest) =
                '\\' :: 'r' :: (jsEscape cs ++ '"' :: rest) from rfl,
              qstr.eq_def]
            simp [ih]
          · by_cases h5 : c = '\t'
            · subst h5
              rw [show jsEscapeChar '\t' ++ (jsEscape cs ++ '"' :: rest) =
                  '\\' :: 't' :: (jsEscape cs ++ '"' :: rest) from rfl,
                qstr.eq_def]
              simp [ih]
            · rw [show jsEscapeChar c ++ (jsEscape cs ++ '"' :: rest) =
                  c :: (jsEscape cs ++ '"' :: rest) by
                    simp [jsEscapeChar, h1, h2, h3, h4, h5],
                qstr_plain _ h2 h1, ih]
              rfl

theorem parseScalar_escY (v : String) :
    parseScalar (escapeYamlValue v) = some (.str v) := by
  have h : qstr (jsEscape v.data ++ ['"']) = some (v.data, []) :=
    qstr_escape v.data []
  rw [parseScalar.eq_def]
  unfold escapeYamlValue
  simp only [h]

theorem parseScalar_true : parseScalar "true".data = some (.bool true) := by
  rw [parseScalar.eq_def]; rfl

theorem parseScalar_false :
    parseScalar "false".data = some (.bool false) := by
  rw [parseScalar.eq_def]; rfl

theorem keySplit_append (k rest : List Char) (hk : ':' ∉ k) :
    keySplit (k ++ ':' :: rest) = some (k, rest) := by
  induction k with
  | nil => rw [List.nil_append, keySplit.eq_def]; rfl
  | cons c cs ih =>
    have hc : c ≠ ':' := fun h => hk (h ▸ List.mem_cons_self c cs)
    have hcs : ':' ∉ cs := fun h => hk (List.mem_cons_of_mem c h)
    rw [List.cons_append, keySplit.eq_def]
    simp [hc, ih hcs]

/-! Line splitting and joining. -/

theorem splitNlOnly_ne_nil (l : List Char) : splitNlOnly l ≠ [] := by
  cases l with
  | nil => simp [splitNlOnly]
  | cons c cs =>
    rw [splitNlOnly.eq_def]
    by_cases h : c = '\n'
    · simp [h]
    · simp only [if_neg h]
      cases hs : splitNlOnly cs <;> simp

theorem joinNl_splitNl (l : List Char) : joinNl (splitNlOnly l) = l := by
  induction l with
  | nil => rfl
  | cons c cs ih =>
    rw [splitNlOnly.eq_def]
    by_cases h : c = '\n'
    · subst h
      simp only [if_pos rfl]
      cases hs : splitNlOnly cs with
      | nil => exact absurd hs (splitNlOnly_ne_nil cs)
      | cons l ls => rw [hs] at ih; simp [joinNl, ih]
    · simp only [if_neg h]
      cases hs : splitNlOnly cs with
      | nil => exact absurd hs (splitNlOnly_ne_nil cs)
      | cons l0 ls0 =>
        rw [hs] at ih
        cases ls0 with
        | nil =>
          simp only [joinNl] at ih ⊢
          rw [ih]
        | cons l2 ls2 =>
          simp only [joinNl] at ih ⊢
          rw [List.cons_append, ih]

theorem splitNlOnly_append_nl (l rest : List Char) (h : '\n' ∉ l) :
    splitNlOnly (l ++ '\n' :: rest) = l :: splitNlOnly rest := by
  induction l with
  | nil =>
    rw [List.nil_append, splitNlOnly.eq_def]
    simp
  | cons c cs ih =>
    have hc : c ≠ '\n' := fun hh => h (hh ▸ List.mem_cons_self c cs)
    have hcs : '\n' ∉ cs := fun hh => h (List.mem_cons_of_mem c hh)
    rw [List.cons_append, splitNlOnly.eq_def]
    simp only [if_neg hc]
    rw [ih hcs]

theorem splitNl_join_trailing (ls : List (List Char)) (hne : ls ≠ [])
    (h : ∀ l ∈ ls, '\n' ∉ l) :
    splitNlOnly (joinNl ls ++ ['\n']) = ls ++ [[]] := by
  induction ls with
  | nil => cases hne rfl
  | cons l ls ih =>
    cases ls with
    | nil =>
      have hl := h l (List.mem_cons_self l [])
      simp only [joinNl]
      rw [show (l ++ ['\n'] : List Char) = l ++ '\n' :: [] from rfl,
        splitNlOnly_append_nl l [] hl]
      rfl
    | cons l2 ls2 =>
      have hl := h l (List.mem_cons_self l _)
      simp only [joinNl]
      rw [List.append_assoc, show ('\n' :: joinNl (l2 :: ls2) ++ ['\n']
          : List Char) = '\n' :: (joinNl (l2 :: ls2) ++ ['\n']) from rfl,
        splitNlOnly_append_nl l _ hl,
        ih (by simp) (fun x hx => h x (List.mem_cons_of_mem l hx))]
      rfl

theorem splitBreaks_eq_splitNl (l : List Char) (h : '\r' ∉ l) :
    splitBreaks l = splitNlOnly l := by
  induction l with
  | nil => rfl
  | cons c cs ih =>
    have hc : c ≠ '\r' := fun hh => h (hh ▸ List.mem_cons_self c cs)
    have hcs : '\r' ∉ cs := fun hh => h (List.mem_cons_of_mem c hh)
    rw [splitBreaks.eq_def, splitNlOnly.eq_def]
    by_cases hn : c = '\n'
    · simp [hn, ih hcs]
    · simp only [if_neg hc, if_neg hn]
      rw [ih hcs]

theorem mem_splitNlOnly_subset {l : List Char} {x : List Char} {c : Char}
    (hx : x ∈ splitNlOnly l) (hc : c ∈ x) : c ∈ l ∧ c ≠ '\n' := by
  induction l generalizing x with
  | nil =>
    simp [splitNlOnly] at hx
    subst hx
    cases hc
  | cons d ds ih =>
    rw [splitNlOnly.eq_def] at hx
    by_cases hd : d = '\n'
    · simp only [if_pos hd] at hx
      rcases List.mem_cons.mp hx with rfl | hx2
      · cases hc
      · obtain ⟨h1, h2⟩ := ih hx2 hc
        exact ⟨List.mem_cons_of_mem _ h1, h2⟩
    · simp only [if_neg hd] at hx
      cases hs : splitNlOnly ds with
      | nil => exact absurd hs (splitNlOnly_ne_nil ds)
      | cons l0 ls0 =>
        rw [hs] at hx
        rcases List.mem_cons.mp hx with rfl | hx2
        · rcases List.mem_cons.mp hc with rfl | hc2
          · exact ⟨List.mem_cons_self _ _, hd⟩
          · obtain ⟨h1, h2⟩ :=
              ih (x := l0) (by rw [hs]; exact List.mem_cons_self l0 ls0) hc2
            exact ⟨List.mem_cons_of_mem _ h1, h2⟩
        · obtain ⟨h1, h2⟩ :=
            ih (x := x) (by rw [hs]; exact List.mem_cons_of_mem l0 hx2) hc
          exact ⟨List.mem_cons_of_mem _ h1, h2⟩

theorem dropWhile_append_singleton {p : Char → Bool} {c : Char}
    (hc : p c = false) (A : List Char) :
    (A ++ [c]).dropWhile p = A.dropWhile p ++ [c] := by
  induction A with
  | nil => simp [List.dropWhile, hc]
  | cons a as ih =>
    by_cases ha : p a
    · simp [List.dropWhile_cons, ha, ih]
    · simp [List.dropWhile_cons, ha]

theorem jsTrimRightL_cons {c : Char} (hc : isJsSpace c = false)
    (xs : List Char) : jsTrimRightL (c :: xs) = c :: jsTrimRightL xs := by
  unfold jsTrimRightL
  rw [show ((c :: xs).reverse : List Char) = xs.reverse ++ [c] by simp,
    dropWhile_append_singleton hc]
  simp

theorem jsTrimL_cons {c : Char} (hc : isJsSpace c = false) (xs : List Char) :
    jsTrimL (c :: xs) = c :: jsTrimRightL xs := by
  unfold jsTrimL jsTrimLeftL
  rw [List.dropWhile_cons, if_neg (by simp [hc]), jsTrimRightL_cons hc]

theorem mem_joinNl {ls : List (List Char)} {l : List Char} {c : Char}
    (hl : l ∈ ls) (hc : c ∈ l) : c ∈ joinNl ls := by
  induction ls with
  | nil => cases hl
  | cons x xs ih =>
    cases xs with
    | nil =>
      simp only [joinNl]
      rcases List.mem_cons.mp hl with rfl | hx
      · exact hc
      · cases hx
    | cons y ys =>
      simp only [joinNl]
      rcases List.mem_cons.mp hl with rfl | hx
      · exact List.mem_append.mpr (Or.inl hc)
      · exact List.mem_append.mpr (Or.inr (List.mem_cons_of_mem _ (ih hx)))

theorem mem_joinNl_inv {ls : List (List Char)} {c : Char}
    (hc : c ∈ joinNl ls) : (∃ l ∈ ls, c ∈ l) ∨ c = '\n' := by
  induction ls with
  | nil => cases hc
  | cons x xs ih =>
    cases xs with
    | nil =>
      simp only [joinNl] at hc
      exact Or.inl ⟨x, List.mem_cons_self x [], hc⟩
    | cons y ys =>
      simp only [joinNl] at hc
      rcases List.mem_append.mp hc with h1 | h2
      · exact Or.inl ⟨x, List.mem_cons_self x _, h1⟩
      · rcases List.mem_cons.mp h2 with rfl | h3
        · exact Or.inr rfl
        · rcases ih h3 with ⟨l, hl, hcl⟩ | hnl
          · exact Or.inl ⟨l, List.mem_cons_of_mem x hl, hcl⟩
          · exact Or.inr hnl

theorem isSkipLine_nil : isSkipLine [] = true := rfl

theorem isSkipLine_hash (xs : List Char) : isSkipLine ('#' :: xs) = true := by
  have h : isJsSpace '#' = false := by decide
  simp [isSkipLine, jsTrimLeftL, List.dropWhile_cons, h]

theorem isSkipLine_false {c : Char} (xs : List Char)
    (h1 : isJsSpace c = false) (h2 : c ≠ '#') :
    isSkipLine (c :: xs) = false := by
  simp only [isSkipLine, jsTrimLeftL, List.dropWhile_cons, h1]
  split
  · rename_i heq
    cases heq
  · rename_i heq
    rw [if_neg (by simp [h1])] at heq
    cases heq
    exact absurd rfl h2
  · rfl

theorem parseDoc_skip {l : List Char} (h : isSkipLine l = true)
    (ls : List (List Char)) (acc : LoginYaml) :
    parseDoc (l :: ls) acc = parseDoc ls acc := by
  rw [parseDoc.eq_def]
  simp [h]

theorem parseDoc_nil (acc : LoginYaml) : parseDoc [] acc = some acc := by
  rw [parseDoc.eq_def]

/-- One recognised top-level scalar line `key: value`. -/
theorem parseDoc_scalar_generic (key vline : List Char) (sv : YScalar)
    (ls : List (List Char)) (acc acc2 : LoginYaml)
    (hkc : ':' ∉ key)
    (hskip : isSkipLine (key ++ ':' :: ' ' :: vline) = false)
    (hne1 : key ≠ "additional_urls".data)
    (hne2 : key ≠ "custom_fields".data)
    (hnb : ¬(key = "notes".data ∧ vline = ['|']))
    (hps : parseScalar vline = some sv)
    (hset : setDocKey acc key sv = some acc2) :
    parseDoc ((key ++ ':' :: ' ' :: vline) :: ls) acc = parseDoc ls acc2 := by
  have hb : (decide (key = "notes".data) &&
      decide ((' ' :: vline : List Char) = " |".data)) = false := by
    by_cases hk : key = "notes".data
    · have hv : vline ≠ ['|'] := fun hv => hnb ⟨hk, hv⟩
      have : (' ' :: vline : List Char) ≠ " |".data := by
        intro hx
        apply hv
        have := List.tail_eq_of_cons_eq hx
        simpa using this
      simp [this]
    · simp [hk]
  rw [parseDoc.eq_def]
  simp [hskip, keySplit_append key (' ' :: vline) hkc, hne1, hne2, hb,
    hps, hset]
  intro hk hv
  exact absurd ⟨hk, hv⟩ hnb

theorem takeWhile_append_all {α : Type} {p : α → Bool} {A : List α}
    (h : ∀ a ∈ A, p a = true) (B : List α) :
    (A ++ B).takeWhile p = A ++ B.takeWhile p := by
  induction A with
  | nil => simp
  | cons x xs ih =>
    have hx := h x (List.mem_cons_self x xs)
    simp [List.takeWhile_cons, hx,
      ih (fun a ha => h a (List.mem_cons_of_mem x ha))]

theorem dropWhile_append_all {α : Type} {p : α → Bool} {A : List α}
    (h : ∀ a ∈ A, p a = true) (B : List α) :
    (A ++ B).dropWhile p = B.dropWhile p := by
  induction A with
  | nil => simp
  | cons x xs ih =>
    have hx := h x (List.mem_cons_self x xs)
    simp [List.dropWhile_cons, hx,
      ih (fun a ha => h a (List.mem_cons_of_mem x ha))]

theorem dropWhile_append_break {α : Type} {p : α → Bool} {A : List α}
    (h : A.dropWhile p ≠ []) (B : List α) :
    (A ++ B).dropWhile p = A.dropWhile p ++ B := by
  induction A with
  | nil => simp at h
  | cons x xs ih =>
    by_cases hx : p x
    · rw [List.dropWhile_cons_of_pos hx] at h
      simp [List.dropWhile_cons, hx, ih h]
    · simp [List.dropWhile_cons, hx]

theorem takeWhile_append_break {α : Type} {p : α → Bool} {A : List α}
    (h : A.dropWhile p ≠ []) (B : List α) :
    (A ++ B).takeWhile p = A.takeWhile p := by
  induction A with
  | nil => simp at h
  | cons x xs ih =>
    by_cases hx : p x
    · rw [List.dropWhile_cons_of_pos hx] at h
      simp [List.takeWhile_cons, hx, ih h]
    · simp [List.takeWhile_cons, hx]

theorem head_dropWhile_false {α : Type} {p : α → Bool} {A : List α}
    {a : α} {t : List α} (h : A.dropWhile p = a :: t) : p a = false := by
  induction A with
  | nil => simp at h
  | cons x xs ih =>
    by_cases hx : p x
    · rw [List.dropWhile_cons_of_pos hx] at h
      exact ih h
    · rw [List.dropWhile_cons_of_neg hx] at h
      cases h
      exact Bool.not_eq_true _ ▸ (by simpa using hx)

/-- A line of the emitted notes block is all-space iff the note line is
empty (given that note lines never start with a space). -/
theorem allSpace_noteLine {l : List Char} (h : l.head? ≠ some ' ') :
    allSpace ("  ".data ++ l) = true ↔ l = [] := by
  have hdata : "  ".data = [' ', ' '] := rfl
  cases l with
  | nil => constructor <;> intro <;> [rfl; decide]
  | cons c cs =>
    have hc : c ≠ ' ' := by
      intro hh
      exact h (by rw [hh]; rfl)
    constructor <;> intro hcon
    · rw [allSpace, hdata] at hcon
      simp [hc] at hcon
    · cases hcon

theorem leadingSpaces_noteLine {l : List Char} (h : l.head? ≠ some ' ') :
    (l = [] → False) → leadingSpaces ("  ".data ++ l) = 2 := by
  intro hne
  cases l with
  | nil => exact absurd rfl hne
  | cons c cs =>
    have hc : c ≠ ' ' := by
      intro hh
      exact h (by rw [hh]; rfl)
    simp [leadingSpaces, List.takeWhile_cons, hc]

theorem drop2_pad (l : List Char) : ("  ".data ++ l).drop 2 = l := rfl

theorem blockTake_emitted (noteLs : List (List Char))
    (rest : List (List Char))
    (hpre : ∀ l ∈ noteLs, l.head? ≠ some ' ')
    (hex : ∃ l ∈ noteLs, l ≠ [])
    (hstop : match rest with
      | [] => False
      | l :: _ => allSpace l = false ∧ leadingSpaces l = 0) :
    blockTake ((noteLs.map (fun l => "  ".data ++ l)) ++ rest) =
      some (String.mk (joinNl noteLs), noteLs.length) := by
  cases rest with
  | nil => cases hstop
  | cons r rs =>
    obtain ⟨hr1, hr2⟩ := hstop
    set E := noteLs.map (fun l => "  ".data ++ l) with hE
    have hEblock : ∀ e ∈ E, (allSpace e || decide (leadingSpaces e ≥ 2)) = true := by
      intro e he
      rw [hE] at he
      obtain ⟨l, hl, rfl⟩ := List.mem_map.mp he
      by_cases hnil : l = []
      · subst hnil
        decide
      · have h2 := leadingSpaces_noteLine (hpre l hl) (fun hh => hnil hh)
        rw [h2]
        simp
    have hEdrop : E.dropWhile allSpace ≠ [] := by
      obtain ⟨l, hl, hlne⟩ := hex
      intro hdrop
      have hall := List.dropWhile_eq_nil_iff.mp hdrop
      have := hall ("  ".data ++ l) (by rw [hE]; exact List.mem_map_of_mem _ hl)
      rw [allSpace_noteLine (hpre l hl)] at this
      exact hlne this
    have hdw : (E ++ r :: rs).dropWhile allSpace =
        E.dropWhile allSpace ++ r :: rs := dropWhile_append_break hEdrop _
    obtain ⟨e0, es, he0⟩ : ∃ e0 es, E.dropWhile allSpace = e0 :: es := by
      cases hd : E.dropWhile allSpace with
      | nil => exact absurd hd hEdrop
      | cons a b => exact ⟨a, b, rfl⟩
    have he0E : e0 ∈ E := by
      have hmem : e0 ∈ E.dropWhile allSpace := by
        rw [he0]; exact List.mem_cons_self _ _
      exact (List.dropWhile_sublist allSpace).subset hmem
    obtain ⟨l0, hl0, hl0e⟩ := List.mem_map.mp he0E
    have he0ns : allSpace e0 = false := head_dropWhile_false he0
    have hl0ne : l0 ≠ [] := by
      intro hh
      rw [← hl0e] at he0ns
      rw [(allSpace_noteLine (hpre l0 hl0)).symm.mp hh.symm.symm] at he0ns
      · cases he0ns
    have hlead : leadingSpaces e0 = 2 := by
      rw [← hl0e]
      exact leadingSpaces_noteLine (hpre l0 hl0) (fun hh => hl0ne hh)
    have htw : (E ++ r :: rs).takeWhile allSpace = E.takeWhile allSpace :=
      takeWhile_append_break hEdrop _
    have htwall : ((E ++ r :: rs).takeWhile allSpace).all
        (fun p => decide (p.length ≤ 2)) = true := by
      rw [htw, List.all_eq_true]
      intro e he
      have heE : e ∈ E := (List.takeWhile_sublist allSpace).subset he
      have hesp : allSpace e = true := List.mem_takeWhile_imp he
      rw [hE] at heE
      obtain ⟨l, hl, rfl⟩ := List.mem_map.mp heE
      have : l = [] := (allSpace_noteLine (hpre l hl)).mp hesp
      subst this
      decide
    have hcontent : (E ++ r :: rs).takeWhile
        (fun l2 => allSpace l2 || decide (leadingSpaces l2 ≥ 2)) = E := by
      rw [takeWhile_append_all hEblock]
      rw [List.takeWhile_cons_of_neg (by simp [hr1, hr2])]
      simp
    have hmapE : E.map (fun l2 => l2.drop 2) = noteLs := by
      rw [hE, List.map_map]
      have hcomp : ((fun l2 : List Char => l2.drop 2) ∘
          fun l => "  ".data ++ l) = id := by
        funext l
        exact drop2_pad l
      rw [hcomp, List.map_id]
    have hlen : E.length = noteLs.length := by
      rw [hE, List.length_map]
    unfold blockTake
    rw [hdw, he0]
    simp only [List.cons_append]
    simp only [hlead, htwall, hcontent, hmapE, hlen]
    simp

theorem take4_dash (B : List Char) : ("  - ".data ++ B).take 4 = "  - ".data :=
  rfl

theorem drop4_dash (B : List Char) : ("  - ".data ++ B).drop 4 = B := rfl

theorem seqTake_emitted (urls : List String) (rest : List (List Char))
    (hstop : match rest with
      | [] => True
      | l :: _ => l.take 4 ≠ "  - ".data) :
    seqTake ((urls.map (fun u => "  - ".data ++ escapeYamlValue u)) ++ rest) =
      some (urls.map (fun u => YScalar.str u), urls.length) := by
  induction urls with
  | nil =>
    simp only [List.map_nil, List.nil_append, List.length_nil]
    cases rest with
    | nil => exact seqTake.eq_1
    | cons r rs =>
      have hs : r.take 4 ≠ "  - ".data := hstop
      rw [seqTake.eq_2]
      simp [hs]
  | cons u us ih =>
    rw [show (((u :: us).map (fun u => "  - ".data ++ escapeYamlValue u)) ++
        rest) = ("  - ".data ++ escapeYamlValue u) ::
        ((us.map (fun u => "  - ".data ++ escapeYamlValue u)) ++ rest)
      from rfl]
    rw [seqTake.eq_2, if_pos (take4_dash (escapeYamlValue u)), drop4_dash,
      parseScalar_escY, ih]
    rfl

theorem fieldsLoop_dash (l k v : List Char) (sv : YScalar)
    (f0 : YamlCustomField) (cur : Option YamlCustomField)
    (acc : List YamlCustomField) (rest : List (List Char))
    (out : List YamlCustomField × Nat)
    (ht : l.take 4 = "  - ".data)
    (hd : l.drop 4 = k ++ ':' :: ' ' :: v)
    (hkc : ':' ∉ k)
    (hps : parseScalar v = some sv)
    (hset : setFieldKey {} k sv = some f0)
    (hrec : fieldsLoop (some f0) (acc ++ cur.toList) rest = some out) :
    fieldsLoop cur acc (l :: rest) = some (out.1, out.2 + 1) := by
  cases cur with
  | none =>
    rw [fieldsLoop.eq_3]
    simp only [Option.toList_none, List.append_nil] at hrec
    simp [ht, hd, keySplit_append k (' ' :: v) hkc, hps, hset, hrec]
  | some c =>
    rw [fieldsLoop.eq_2]
    simp only [Option.toList_some] at hrec
    simp [ht, hd, keySplit_append k (' ' :: v) hkc, hps, hset, hrec]

theorem fieldsLoop_cont (l k v : List Char) (sv : YScalar)
    (f f2 : YamlCustomField) (acc : List YamlCustomField)
    (rest : List (List Char)) (out : List YamlCustomField × Nat)
    (ht : l.take 4 = "    ".data)
    (hd : l.drop 4 = k ++ ':' :: ' ' :: v)
    (hkc : ':' ∉ k)
    (hps : parseScalar v = some sv)
    (hset : setFieldKey f k sv = some f2)
    (hrec : fieldsLoop (some f2) acc rest = some out) :
    fieldsLoop (some f) acc (l :: rest) = some (out.1, out.2 + 1) := by
  have hne : ("    ".data : List Char) ≠ "  - ".data := by decide
  rw [fieldsLoop.eq_2]
  simp [ht, hne, hd, keySplit_append k (' ' :: v) hkc, hps, hset, hrec]

theorem fieldsLoop_fieldLines (f : Bw.BwField) (cur : Option YamlCustomField)
    (acc : List YamlCustomField) (L : List (List Char))
    (out : List YamlCustomField × Nat)
    (hrec : fieldsLoop (some (fieldConv f)) (acc ++ cur.toList) L = some out) :
    fieldsLoop cur acc (fieldLines f ++ L) =
      some (out.1, out.2 + (fieldLines f).length) := by
  by_cases htp : f.type = 1
  · have hfc : fieldConv f =
        ⟨some (.str f.name), some (.str (f.value.getD "")),
          some (.bool true)⟩ := by
      simp [fieldConv, htp]
    rw [hfc] at hrec
    have h2 := fieldsLoop_cont "    hidden: true".data
      "hidden".data "true".data (.bool true)
      ⟨some (.str f.name), some (.str (f.value.getD "")), none⟩
      ⟨some (.str f.name), some (.str (f.value.getD "")), some (.bool true)⟩
      (acc ++ cur.toList) L out rfl rfl (by decide) parseScalar_true rfl hrec
    have h1 := fieldsLoop_cont
      ("    value: ".data ++ escapeYamlValue (f.value.getD ""))
      "value".data (escapeYamlValue (f.value.getD ""))
      (.str (f.value.getD "")) ⟨some (.str f.name), none, none⟩
      ⟨some (.str f.name), some (.str (f.value.getD "")), none⟩
      (acc ++ cur.toList) ("    hidden: true".data :: L) _ rfl rfl (by decide)
      (parseScalar_escY _) rfl h2
    have h0 := fieldsLoop_dash ("  - name: ".data ++ escapeYamlValue f.name)
      "name".data (escapeYamlValue f.name) (.str f.name)
      ⟨some (.str f.name), none, none⟩ cur acc
      (("    value: ".data ++ escapeYamlValue (f.value.getD "")) ::
        "    hidden: true".data :: L) _ rfl rfl (by decide)
      (parseScalar_escY _) rfl h1
    have hl : fieldLines f ++ L =
        ("  - name: ".data ++ escapeYamlValue f.name) ::
        ("    value: ".data ++ escapeYamlValue (f.value.getD "")) ::
        "    hidden: true".data :: L := by
      simp [fieldLines, htp]
    have hlen : (fieldLines f).length = 3 := by
      simp [fieldLines, htp]
    rw [hl, hlen]
    exact h0
  · have hfc : fieldConv f =
        ⟨some (.str f.name), some (.str (f.value.getD "")), none⟩ := by
      simp [fieldConv, htp]
    rw [hfc] at hrec
    have h1 := fieldsLoop_cont
      ("    value: ".data ++ escapeYamlValue (f.value.getD ""))
      "value".data (escapeYamlValue (f.value.getD ""))
      (.str (f.value.getD "")) ⟨some (.str f.name), none, none⟩
      ⟨some (.str f.name), some (.str (f.value.getD "")), none⟩
      (acc ++ cur.toList) L out rfl rfl (by decide) (parseScalar_escY _) rfl
      hrec
    have h0 := fieldsLoop_dash ("  - name: ".data ++ escapeYamlValue f.name)
      "name".data (escapeYamlValue f.name) (.str f.name)
      ⟨some (.str f.name), none, none⟩ cur acc
      (("    value: ".data ++ escapeYamlValue (f.value.getD "")) :: L) _
      rfl rfl (by decide) (parseScalar_escY _) rfl h1
    have hl : fieldLines f ++ L =
        ("  - name: ".data ++ escapeYamlValue f.name) ::
        ("    value: ".data ++ escapeYamlValue (f.value.getD "")) :: L := by
      simp [fieldLines, htp]
    have hlen : (fieldLines f).length = 2 := by
      simp [fieldLines, htp]
    rw [hl, hlen]
    exact h0

theorem fieldsLoop_emitted (fs : List Bw.BwField) (rest : List (List Char))
    (hstop : match rest with
      | [] => True
      | l :: _ => l.take 4 ≠ "  - ".data ∧ l.take 4 ≠ "    ".data)
    (cur : Option YamlCustomField) (acc : List YamlCustomField) :
    fieldsLoop cur acc ((fs.map fieldLines).flatten ++ rest) =
      some (acc ++ cur.toList ++ fs.map fieldConv,
        ((fs.map fieldLines).flatten).length) := by
  induction fs generalizing cur acc with
  | nil =>
    simp only [List.map_nil, List.flatten_nil, List.nil_append,
      List.length_nil, List.append_nil]
    cases rest with
    | nil => exact fieldsLoop.eq_1 cur acc
    | cons r rs =>
      have hs1 : r.take 4 ≠ "  - ".data := hstop.1
      have hs2 : r.take 4 ≠ "    ".data := hstop.2
      cases cur with
      | none =>
        rw [fieldsLoop.eq_3]
        simp [hs1, hs2]
      | some c =>
        rw [fieldsLoop.eq_2]
        simp [hs1, hs2]
  | cons f fs ih =>
    have hflat : ((f :: fs).map fieldLines).flatten ++ rest =
        fieldLines f ++ ((fs.map fieldLines).flatten ++ rest) := by
      simp
    rw [hflat]
    have h := fieldsLoop_fieldLines f cur acc
      ((fs.map fieldLines).flatten ++ rest) _
      (ih (some (fieldConv f)) (acc ++ cur.toList))
    rw [h]
    simp [Nat.add_comm]

theorem parseDoc_additional_urls (urls : List String)
    (rest : List (List Char)) (acc : LoginYaml)
    (hacc : acc.additional_urls = none)
    (hstop : match rest with
      | [] => True
      | l :: _ => l.take 4 ≠ "  - ".data) :
    parseDoc ("additional_urls:".data ::
        ((urls.map (fun u => "  - ".data ++ escapeYamlValue u)) ++ rest)) acc =
      parseDoc rest
        { acc with
          additional_urls := some (urls.map (fun u => YScalar.str u)) } := by
  have hskip : isSkipLine ['a', 'd', 'd', 'i', 't', 'i', 'o', 'n', 'a', 'l', '_', 'u', 'r', 'l', 's', ':'] = false := by decide
  have hks : keySplit ['a', 'd', 'd', 'i', 't', 'i', 'o', 'n', 'a', 'l', '_', 'u', 'r', 'l', 's', ':'] = some (['a', 'd', 'd', 'i', 't', 'i', 'o', 'n', 'a', 'l', '_', 'u', 'r', 'l', 's'], []) := by decide
  have hseq : seqTake
      (urls.map (fun u => ' ' :: ' ' :: '-' :: ' ' :: escapeYamlValue u) ++
        rest) = some (urls.map (fun u => YScalar.str u), urls.length) :=
    seqTake_emitted urls rest hstop
  have hdrop : ((urls.map
      (fun u => ' ' :: ' ' :: '-' :: ' ' :: escapeYamlValue u)) ++
      rest).drop urls.length = rest := by
    have hlm : urls.length = (urls.map
        (fun u => ' ' :: ' ' :: '-' :: ' ' :: escapeYamlValue u)).length := by
      rw [List.length_map]
    rw [hlm]
    exact List.drop_left _ _
  rw [parseDoc.eq_def]
  simp [hskip, hks, hseq, hacc, hdrop]

theorem parseDoc_custom_fields (fs : List Bw.BwField)
    (rest : List (List Char)) (acc : LoginYaml)
    (hacc : acc.custom_fields = none)
    (hstop : match rest with
      | [] => True
      | l :: _ => l.take 4 ≠ "  - ".data ∧ l.take 4 ≠ "    ".data) :
    parseDoc ("custom_fields:".data ::
        ((fs.map fieldLines).flatten ++ rest)) acc =
      parseDoc rest
        { acc with custom_fields := some (fs.map fieldConv) } := by
  have hskip : isSkipLine ['c', 'u', 's', 't', 'o', 'm', '_', 'f', 'i', 'e', 'l', 'd', 's', ':'] = false := by decide
  have hks : keySplit ['c', 'u', 's', 't', 'o', 'm', '_', 'f', 'i', 'e', 'l', 'd', 's', ':'] = some (['c', 'u', 's', 't', 'o', 'm', '_', 'f', 'i', 'e', 'l', 'd', 's'], []) := by decide
  have hne : (['c', 'u', 's', 't', 'o', 'm', '_', 'f', 'i', 'e', 'l', 'd', 's'] : List Char) ≠ ['a', 'd', 'd', 'i', 't', 'i', 'o', 'n', 'a', 'l', '_', 'u', 'r', 'l', 's'] := by decide
  have hfl := fieldsLoop_emitted fs rest hstop none []
  simp only [List.nil_append, Option.toList_none, List.append_nil] at hfl
  have hdrop : ((fs.map fieldLines).flatten ++ rest).drop
      ((fs.map fieldLines).flatten).length = rest := List.drop_left _ _
  rw [parseDoc.eq_def]
  simp [hskip, hks, hne, fieldsTake, hfl, hacc, hdrop]

theorem parseDoc_skips (ls : List (List Char))
    (h : ∀ l ∈ ls, isSkipLine l = true) (rest : List (List Char))
    (acc : LoginYaml) :
    parseDoc (ls ++ rest) acc = parseDoc rest acc := by
  induction ls with
  | nil => rfl
  | cons l ls ih =>
    rw [List.cons_append, parseDoc_skip (h l (List.mem_cons_self l ls))]
    exact ih (fun x hx => h x (List.mem_cons_of_mem l hx))

theorem parseDoc_ite_seg {c : Prop} [Decidable c] {A B rest : List (List Char)}
    {acc accA accB : LoginYaml}
    (hA : c → parseDoc (A ++ rest) acc = parseDoc rest accA)
    (hB : ¬c → parseDoc (B ++ rest) acc = parseDoc rest accB) :
    parseDoc ((if c then A else B) ++ rest) acc =
      parseDoc rest (if c then accA else accB) := by
  by_cases h : c
  · simp only [if_pos h]
    exact hA h
  · simp only [if_neg h]
    exact hB h

theorem parseDoc_header (nm : String) (rest : List (List Char))
    (acc : LoginYaml) :
    parseDoc (([("# Bitpop - Edit Login: " ++ nm).data,
      "# Save and close to update. Delete all content to cancel.".data,
      []]) ++ rest) acc = parseDoc rest acc := by
  refine parseDoc_skips _ ?_ rest acc
  intro l hl
  simp only [List.mem_cons, List.not_mem_nil, or_false] at hl
  rcases hl with rfl | rfl | rfl
  · rw [String.data_append]
    exact isSkipLine_hash _
  · decide
  · exact isSkipLine_nil

theorem parseDoc_name_line (v : String) (rest : List (List Char))
    (acc : LoginYaml) (hacc : acc.name = none) :
    parseDoc (["name: ".data ++ escapeYamlValue v] ++ rest) acc =
      parseDoc rest { acc with name := some (.str v) } := by
  rw [show (["name: ".data ++ escapeYamlValue v] ++ rest) =
      ("name".data ++ ':' :: ' ' :: escapeYamlValue v) :: rest from rfl]
  exact parseDoc_scalar_generic "name".data (escapeYamlValue v) _ rest acc _
    (by decide) (isSkipLine_false _ (by decide) (by decide))
    (by decide) (by decide) (fun h => absurd h.1 (by decide))
    (parseScalar_escY v) (by simp [setDocKey, hacc])

theorem parseDoc_username_line (v : String) (rest : List (List Char))
    (acc : LoginYaml) (hacc : acc.username = none) :
    parseDoc (["username: ".data ++ escapeYamlValue v] ++ rest) acc =
      parseDoc rest { acc with username := some (.str v) } := by
  rw [show (["username: ".data ++ escapeYamlValue v] ++ rest) =
      ("username".data ++ ':' :: ' ' :: escapeYamlValue v) :: rest from rfl]
  exact parseDoc_scalar_generic "username".data (escapeYamlValue v) _ rest acc _
    (by decide) (isSkipLine_false _ (by decide) (by decide))
    (by decide) (by decide) (fun h => absurd h.1 (by decide))
    (parseScalar_escY v) (by simp [setDocKey, hacc])

theorem parseDoc_password_line (v : String) (rest : List (List Char))
    (acc : LoginYaml) (hacc : acc.password = none) :
    parseDoc (["password: ".data ++ escapeYamlValue v] ++ rest) acc =
      parseDoc rest { acc with password := some (.str v) } := by
  rw [show (["password: ".data ++ escapeYamlValue v] ++ rest) =
      ("password".data ++ ':' :: ' ' :: escapeYamlValue v) :: rest from rfl]
  exact parseDoc_scalar_generic "password".data (escapeYamlValue v) _ rest acc _
    (by decide) (isSkipLine_false _ (by decide) (by decide))
    (by decide) (by decide) (fun h => absurd h.1 (by decide))
    (parseScalar_escY v) (by simp [setDocKey, hacc])

theorem parseDoc_url_line (v : String) (rest : List (List Char))
    (acc : LoginYaml) (hacc : acc.url = none) :
    parseDoc (["url: ".data ++ escapeYamlValue v] ++ rest) acc =
      parseDoc rest { acc with url := some (.str v) } := by
  rw [show (["url: ".data ++ escapeYamlValue v] ++ rest) =
      ("url".data ++ ':' :: ' ' :: escapeYamlValue v) :: rest from rfl]
  exact parseDoc_scalar_generic "url".data (escapeYamlValue v) _ rest acc _
    (by decide) (isSkipLine_false _ (by decide) (by decide))
    (by decide) (by decide) (fun h => absurd h.1 (by decide))
    (parseScalar_escY v) (by simp [setDocKey, hacc])

theorem parseDoc_totp_line (v : String) (rest : List (List Char))
    (acc : LoginYaml) (hacc : acc.totp_secret = none) :
    parseDoc (["totp_secret: ".data ++ escapeYamlValue v] ++ rest) acc =
      parseDoc rest { acc with totp_secret := some (.str v) } := by
  rw [show (["totp_secret: ".data ++ escapeYamlValue v] ++ rest) =
      ("totp_secret".data ++ ':' :: ' ' :: escapeYamlValue v) :: rest
    from rfl]
  exact parseDoc_scalar_generic "totp_secret".data (escapeYamlValue v) _ rest
    acc _
    (by decide) (isSkipLine_false _ (by decide) (by decide))
    (by decide) (by decide) (fun h => absurd h.1 (by decide))
    (parseScalar_escY v) (by simp [setDocKey, hacc])

theorem parseDoc_notes_line (v : String) (rest : List (List Char))
    (acc : LoginYaml) (hacc : acc.notes = none) :
    parseDoc (["notes: ".data ++ escapeYamlValue v] ++ rest) acc =
      parseDoc rest { acc with notes := some (.str v) } := by
  rw [show (["notes: ".data ++ escapeYamlValue v] ++ rest) =
      ("notes".data ++ ':' :: ' ' :: escapeYamlValue v) :: rest from rfl]
  exact parseDoc_scalar_generic "notes".data (escapeYamlValue v) _ rest acc _
    (by decide) (isSkipLine_false _ (by decide) (by decide))
    (by decide) (by decide)
    (fun h => by simp [escapeYamlValue] at h)
    (parseScalar_escY v) (by simp [setDocKey, hacc])

theorem parseDoc_favorite_line (b : Bool) (rest : List (List Char))
    (acc : LoginYaml) (hacc : acc.favorite = none) :
    parseDoc (["favorite: ".data ++
        (if b then "true".data else "false".data)] ++ rest) acc =
      parseDoc rest { acc with favorite := some (.bool b) } := by
  cases b with
  | true =>
    rw [show (["favorite: ".data ++
        (if true then "true".data else "false".data)] ++ rest) =
        ("favorite".data ++ ':' :: ' ' :: "true".data) :: rest from rfl]
    exact parseDoc_scalar_generic "favorite".data "true".data _ rest acc _
      (by decide) (isSkipLine_false _ (by decide) (by decide))
      (by decide) (by decide) (fun h => absurd h.1 (by decide))
      parseScalar_true (by simp [setDocKey, hacc])
  | false =>
    rw [show (["favorite: ".data ++
        (if false then "true".data else "false".data)] ++ rest) =
        ("favorite".data ++ ':' :: ' ' :: "false".data) :: rest from rfl]
    exact parseDoc_scalar_generic "favorite".data "false".data _ rest acc _
      (by decide) (isSkipLine_false _ (by decide) (by decide))
      (by decide) (by decide) (fun h => absurd h.1 (by decide))
      parseScalar_false (by simp [setDocKey, hacc])

theorem parseDoc_reprompt_line (r : Int) (rest : List (List Char))
    (acc : LoginYaml) (hacc : acc.reprompt = none) :
    parseDoc (["reprompt: ".data ++
        (if r = 1 then "true".data else "false".data)] ++ rest) acc =
      parseDoc rest
        { acc with reprompt := some (.bool (decide (r = 1))) } := by
  by_cases hr : r = 1
  · rw [show (["reprompt: ".data ++
        (if r = 1 then "true".data else "false".data)] ++ rest) =
        ("reprompt".data ++ ':' :: ' ' :: "true".data) :: rest from
      by rw [if_pos hr]; rfl]
    rw [show (decide (r = 1)) = true from by simp [hr]]
    exact parseDoc_scalar_generic "reprompt".data "true".data _ rest acc _
      (by decide) (isSkipLine_false _ (by decide) (by decide))
      (by decide) (by decide) (fun h => absurd h.1 (by decide))
      parseScalar_true (by simp [setDocKey, hacc])
  · rw [show (["reprompt: ".data ++
        (if r = 1 then "true".data else "false".data)] ++ rest) =
        ("reprompt".data ++ ':' :: ' ' :: "false".data) :: rest from
      by rw [if_neg hr]; rfl]
    rw [show (decide (r = 1)) = false from by simp [hr]]
    exact parseDoc_scalar_generic "reprompt".data "false".data _ rest acc _
      (by decide) (isSkipLine_false _ (by decide) (by decide))
      (by decide) (by decide) (fun h => absurd h.1 (by decide))
      parseScalar_false (by simp [setDocKey, hacc])

theorem parseDoc_notes_block (s : String) (rest : List (List Char))
    (acc : LoginYaml) (hacc : acc.notes = none)
    (hpre : ∀ l ∈ splitNlOnly s.data, l.head? ≠ some ' ')
    (hex : ∃ l ∈ splitNlOnly s.data, l ≠ [])
    (hstop : match rest with
      | [] => False
      | l :: _ => allSpace l = false ∧ leadingSpaces l = 0) :
    parseDoc ("notes: |".data ::
        (((splitNlOnly s.data).map
          (fun noteLine => "  ".data ++ noteLine)) ++ rest)) acc =
      parseDoc rest { acc with notes := some (.str s) } := by
  have hskip : isSkipLine ['n', 'o', 't', 'e', 's', ':', ' ', '|'] = false := by
    decide
  have hks : keySplit ['n', 'o', 't', 'e', 's', ':', ' ', '|'] =
      some (['n', 'o', 't', 'e', 's'], [' ', '|']) := by decide
  have hne1 : (['n', 'o', 't', 'e', 's'] : List Char) ≠
      ['a', 'd', 'd', 'i', 't', 'i', 'o', 'n', 'a', 'l', '_', 'u', 'r', 'l', 's'] := by
    decide
  have hne2 : (['n', 'o', 't', 'e', 's'] : List Char) ≠
      ['c', 'u', 's', 't', 'o', 'm', '_', 'f', 'i', 'e', 'l', 'd', 's'] := by
    decide
  have hblock := blockTake_emitted (splitNlOnly s.data) rest hpre hex hstop
  have hblock2 : blockTake ((splitNlOnly s.data).map
      (fun noteLine => ' ' :: ' ' :: noteLine) ++ rest) =
      some (String.mk (joinNl (splitNlOnly s.data)),
        (splitNlOnly s.data).length) := hblock
  have hmk : String.mk (joinNl (splitNlOnly s.data)) = s := by
    obtain ⟨d⟩ := s
    rw [show (String.mk d).data = d from rfl, joinNl_splitNl]
  have hdrop : (((splitNlOnly s.data).map
      (fun noteLine => ' ' :: ' ' :: noteLine)) ++ rest).drop
      (splitNlOnly s.data).length = rest := by
    have hlm : (splitNlOnly s.data).length = ((splitNlOnly s.data).map
        (fun noteLine => ' ' :: ' ' :: noteLine)).length := by
      rw [List.length_map]
    rw [hlm]
    exact List.drop_left _ _
  rw [parseDoc.eq_def]
  simp [hskip, hks, hne1, hne2, hblock, hblock2, hacc, hdrop, hmk]

theorem parseDoc_notes_seg (o : Option String) (rest : List (List Char))
    (acc : LoginYaml) (hacc : acc.notes = none) (hsafe : notesSafe o)
    (hstop : match rest with
      | [] => False
      | l :: _ => allSpace l = false ∧ leadingSpaces l = 0) :
    parseDoc ((if optStrTruthy o then
        (if (o.getD "").data.contains '\n' then
          "notes: |".data ::
            ((splitNlOnly (o.getD "").data).map
              (fun noteLine => "  ".data ++ noteLine))
        else ["notes: ".data ++ escapeYamlValue (o.getD "")])
      else ["# notes: \"\"".data]) ++ rest) acc =
      parseDoc rest
        { acc with notes :=
            if optStrTruthy o then some (.str (o.getD "")) else none } := by
  by_cases ht : optStrTruthy o = true
  · rw [if_pos ht, if_pos ht]
    by_cases hn : (o.getD "").data.contains '\n' = true
    · rw [if_pos hn]
      cases o with
      | none => exact absurd ht (by decide)
      | some s =>
        have hmem : '\n' ∈ ((some s).getD "").data := by
          simpa using hn
        obtain ⟨_, himp⟩ := hsafe
        obtain ⟨hpre, hex⟩ := himp hmem
        rw [List.cons_append]
        exact parseDoc_notes_block s rest acc hacc hpre hex hstop
    · rw [if_neg hn]
      exact parseDoc_notes_line (o.getD "") rest acc hacc
  · rw [if_neg ht, if_neg ht]
    rw [parseDoc_skips _ ?_ rest acc]
    · conv_rhs => rw [← hacc]
    · intro l hl
      simp only [List.mem_singleton] at hl
      subst hl
      decide

theorem parseDoc_urls_seg (c : Bool) (us : List Bw.BwUri)
    (rest : List (List Char)) (acc : LoginYaml)
    (hacc : acc.additional_urls = none)
    (hstop : match rest with
      | [] => True
      | l :: _ => l.take 4 ≠ "  - ".data) :
    parseDoc ((if c then
        "additional_urls:".data ::
          ((us.drop 1).map (fun u => "  - ".data ++ escapeYamlValue u.uri))
      else ["# additional_urls:".data,
            "#   - \"https://app.example.com\"".data]) ++ rest) acc =
      parseDoc rest
        { acc with
          additional_urls := if c then
              some (((us.drop 1).map (fun u => u.uri)).map
                (fun u => YScalar.str u))
            else none } := by
  by_cases hc : c = true
  · rw [if_pos hc, if_pos hc]
    have hmm : (us.drop 1).map
        (fun u => "  - ".data ++ escapeYamlValue u.uri) =
        ((us.drop 1).map (fun u => u.uri)).map
          (fun u => "  - ".data ++ escapeYamlValue u) := by
      rw [List.map_map]
      rfl
    rw [show ("additional_urls:".data ::
        ((us.drop 1).map (fun u => "  - ".data ++ escapeYamlValue u.uri))) ++
          rest =
        "additional_urls:".data ::
        (((us.drop 1).map (fun u => u.uri)).map
          (fun u => "  - ".data ++ escapeYamlValue u) ++ rest) from
      by rw [List.cons_append, hmm]]
    exact parseDoc_additional_urls _ rest acc hacc hstop
  · rw [if_neg hc, if_neg hc]
    rw [parseDoc_skips _ ?_ rest acc]
    · conv_rhs => rw [← hacc]
    · intro l hl
      simp only [List.mem_cons, List.not_mem_nil, or_false] at hl
      rcases hl with rfl | rfl <;> decide

theorem parseDoc_fields_seg (c : Bool) (fs : List Bw.BwField)
    (rest : List (List Char)) (acc : LoginYaml)
    (hacc : acc.custom_fields = none)
    (hstop : match rest with
      | [] => True
      | l :: _ => l.take 4 ≠ "  - ".data ∧ l.take 4 ≠ "    ".data) :
    parseDoc ((if c then
        "custom_fields:".data :: (fs.map fieldLines).flatten
      else ["# custom_fields:".data,
            "#   - name: \"API Key\"".data,
            "#     value: \"your-key-here\"".data,
            "#     hidden: true".data]) ++ rest) acc =
      parseDoc rest
        { acc with
          custom_fields := if c then some (fs.map fieldConv) else none } := by
  by_cases hc : c = true
  · rw [if_pos hc, if_pos hc]
    rw [List.cons_append]
    exact parseDoc_custom_fields _ rest acc hacc hstop
  · rw [if_neg hc, if_neg hc]
    rw [parseDoc_skips _ ?_ rest acc]
    · conv_rhs => rw [← hacc]
    · intro l hl
      simp only [List.mem_cons, List.not_mem_nil, or_false] at hl
      rcases hl with rfl | rfl | rfl | rfl <;> decide

theorem parseDoc_username_seg (o : Option String) (rest : List (List Char))
    (acc : LoginYaml) (hacc : acc.username = none) :
    parseDoc ((if optStrTruthy o then
        ["username: ".data ++ escapeYamlValue (o.getD "")]
      else ["# username: \"\"".data]) ++ rest) acc =
      parseDoc rest
        { acc with
          username := if optStrTruthy o then some (.str (o.getD ""))
            else none } := by
  by_cases ht : optStrTruthy o = true
  · rw [if_pos ht, if_pos ht]
    exact parseDoc_username_line (o.getD "") rest acc hacc
  · rw [if_neg ht, if_neg ht]
    rw [parseDoc_skips _ ?_ rest acc]
    · conv_rhs => rw [← hacc]
    · intro l hl
      simp only [List.mem_singleton] at hl
      subst hl
      decide

theorem parseDoc_password_seg (o : Option String) (rest : List (List Char))
    (acc : LoginYaml) (hacc : acc.password = none) :
    parseDoc ((if optStrTruthy o then
        ["password: ".data ++ escapeYamlValue (o.getD "")]
      else ["# password: \"\"".data]) ++ rest) acc =
      parseDoc rest
        { acc with
          password := if optStrTruthy o then some (.str (o.getD ""))
            else none } := by
  by_cases ht : optStrTruthy o = true
  · rw [if_pos ht, if_pos ht]
    exact parseDoc_password_line (o.getD "") rest acc hacc
  · rw [if_neg ht, if_neg ht]
    rw [parseDoc_skips _ ?_ rest acc]
    · conv_rhs => rw [← hacc]
    · intro l hl
      simp only [List.mem_singleton] at hl
      subst hl
      decide

theorem parseDoc_url_seg (o : Option String) (rest : List (List Char))
    (acc : LoginYaml) (hacc : acc.url = none) :
    parseDoc ((if optStrTruthy o then
        ["url: ".data ++ escapeYamlValue (o.getD "")]
      else ["# url: \"\"".data]) ++ rest) acc =
      parseDoc rest
        { acc with
          url := if optStrTruthy o then some (.str (o.getD "")) else none } := by
  by_cases ht : optStrTruthy o = true
  · rw [if_pos ht, if_pos ht]
    exact parseDoc_url_line (o.getD "") rest acc hacc
  · rw [if_neg ht, if_neg ht]
    rw [parseDoc_skips _ ?_ rest acc]
    · conv_rhs => rw [← hacc]
    · intro l hl
      simp only [List.mem_singleton] at hl
      subst hl
      decide

theorem parseDoc_totp_seg (o : Option String) (rest : List (List Char))
    (acc : LoginYaml) (hacc : acc.totp_secret = none) :
    parseDoc ((if optStrTruthy o then
        ["totp_secret: ".data ++ escapeYamlValue (o.getD "")]
      else ["# totp_secret: \"\"".data]) ++ rest) acc =
      parseDoc rest
        { acc with
          totp_secret := if optStrTruthy o then some (.str (o.getD ""))
            else none } := by
  by_cases ht : optStrTruthy o = true
  · rw [if_pos ht, if_pos ht]
    exact parseDoc_totp_line (o.getD "") rest acc hacc
  · rw [if_neg ht, if_neg ht]
    rw [parseDoc_skips _ ?_ rest acc]
    · conv_rhs => rw [← hacc]
    · intro l hl
      simp only [List.mem_singleton] at hl
      subst hl
      decide

/-- What the modelled parser decodes from the emitted document of an item
whose notes satisfy `notesSafe` (the emitted lines, followed by the empty
line the trailing newline produces). -/
theorem parseDoc_emitted (item : Bw.BwItem) (cu cf : Bool)
    (hcu : (match (item.login.getD {}).uris with
      | some us => decide (us.length > 1)
      | none => false) = cu)
    (hcf : (match item.fields with
      | some fs => decide (fs.length > 0)
      | none => false) = cf)
    (hsafe : notesSafe item.notes) :
    parseDoc (itemToYamlLines item ++ [[]]) {} =
      some
        { name := some (.str item.name)
          username := if optStrTruthy (item.login.getD {}).username then some (.str ((item.login.getD {}).username.getD "")) else none
          password := if optStrTruthy (item.login.getD {}).password then some (.str ((item.login.getD {}).password.getD "")) else none
          url := if optStrTruthy (firstUri (item.login.getD {})) then some (.str ((firstUri (item.login.getD {})).getD "")) else none
          totp_secret := if optStrTruthy (item.login.getD {}).totp then some (.str ((item.login.getD {}).totp.getD "")) else none
          notes := if optStrTruthy item.notes then some (.str (item.notes.getD "")) else none
          favorite := some (.bool item.favorite)
          reprompt := some (.bool (decide (item.reprompt = 1)))
          additional_urls := if cu then some (((((item.login.getD {}).uris.getD []).drop 1).map (fun u => u.uri)).map (fun u => YScalar.str u)) else none
          custom_fields := if cf then some ((item.fields.getD []).map fieldConv) else none } := by
  have hstop_f : match ([[]] : List (List Char)) with
      | [] => True
      | l :: _ => l.take 4 ≠ "  - ".data ∧ l.take 4 ≠ "    ".data :=
    ⟨by decide, by decide⟩
  simp only [itemToYamlLines]
  rw [hcu, hcf]
  simp only [List.append_assoc]
  have hstop_u : match ((if cf then
      "custom_fields:".data :: ((item.fields.getD []).map fieldLines).flatten
    else ["# custom_fields:".data,
          "#   - name: \"API Key\"".data,
          "#     value: \"your-key-here\"".data,
          "#     hidden: true".data]) ++ [[]] : List (List Char)) with
      | [] => True
      | l :: _ => l.take 4 ≠ "  - ".data := by
    cases cf with
    | false =>
      exact (by decide :
        ("# custom_fields:".data : List Char).take 4 ≠ "  - ".data)
    | true =>
      exact (by decide :
        ("custom_fields:".data : List Char).take 4 ≠ "  - ".data)
  have hstop_n : ∀ tail : List (List Char),
      match (["favorite: ".data ++
          (if item.favorite then "true".data else "false".data)] ++ tail) with
      | [] => False
      | l :: _ => allSpace l = false ∧ leadingSpaces l = 0 :=
    fun _ => ⟨rfl, rfl⟩
  rw [parseDoc_header]
  rw [parseDoc_name_line item.name _ _ rfl]
  rw [parseDoc_username_seg ((item.login.getD {}).username) _ _ rfl]
  rw [parseDoc_password_seg ((item.login.getD {}).password) _ _ rfl]
  rw [parseDoc_url_seg (firstUri (item.login.getD {})) _ _ rfl]
  rw [parseDoc_totp_seg ((item.login.getD {}).totp) _ _ rfl]
  rw [parseDoc_notes_seg item.notes _ _ rfl hsafe (hstop_n _)]
  rw [parseDoc_favorite_line item.favorite _ _ rfl]
  rw [parseDoc_reprompt_line item.reprompt _ _ rfl]
  rw [parseDoc_urls_seg cu ((item.login.getD {}).uris.getD []) _ _ rfl
    hstop_u]
  rw [parseDoc_fields_seg cf (item.fields.getD []) _ _ rfl hstop_f]
  rw [parseDoc_skip isSkipLine_nil, parseDoc_nil]

theorem noBreak_escY {p : List Char} (hp : ∀ c ∈ p, c ≠ '\n' ∧ c ≠ '\r')
    (v : String) :
    '\n' ∉ p ++ escapeYamlValue v ∧ '\r' ∉ p ++ escapeYamlValue v := by
  have key : ∀ c ∈ p ++ escapeYamlValue v, c ≠ '\n' ∧ c ≠ '\r' := by
    intro c hc
    rcases List.mem_append.mp hc with h | h
    · exact hp c h
    · unfold escapeYamlValue at h
      rcases List.mem_cons.mp h with rfl | h
      · exact ⟨by decide, by decide⟩
      · rcases List.mem_append.mp h with h | h
        · exact mem_jsEscape h
        · rcases List.mem_singleton.mp h with rfl
          exact ⟨by decide, by decide⟩
  exact ⟨fun hm => (key _ hm).1 rfl, fun hm => (key _ hm).2 rfl⟩

theorem noBreak_itemToYamlLines (item : Bw.BwItem)
    (hn : '\n' ∉ item.name.data) (hr : '\r' ∉ item.name.data)
    (hsafe : notesSafe item.notes) :
    ∀ l ∈ itemToYamlLines item, '\n' ∉ l ∧ '\r' ∉ l := by
  have hrn : '\r' ∉ (item.notes.getD "").data := by
    cases hcn : item.notes with
    | none => simp
    | some s =>
      rw [hcn] at hsafe
      exact hsafe.1
  simp only [itemToYamlLines]
  intro l hl
  rcases List.mem_append.mp hl with hl | hl
  rotate_left
  · -- custom_fields block
    split at hl
    · rcases List.mem_cons.mp hl with rfl | hl
      · exact ⟨by decide, by decide⟩
      · obtain ⟨L2, hL2, hlL2⟩ := List.mem_flatten.mp hl
        obtain ⟨f, _, rfl⟩ := List.mem_map.mp hL2
        unfold fieldLines at hlL2
        rcases List.mem_append.mp hlL2 with h2 | h2
        · rcases List.mem_cons.mp h2 with rfl | h2
          · exact noBreak_escY (by decide) _
          · rcases List.mem_singleton.mp h2 with rfl
            exact noBreak_escY (by decide) _
        · split at h2
          · rcases List.mem_singleton.mp h2 with rfl
            exact ⟨by decide, by decide⟩
          · cases h2
    · simp only [List.mem_cons, List.not_mem_nil, or_false] at hl
      rcases hl with rfl | rfl | rfl | rfl <;> exact ⟨by decide, by decide⟩
  rcases List.mem_append.mp hl with hl | hl
  rotate_left
  · -- additional_urls block
    split at hl
    · rcases List.mem_cons.mp hl with rfl | hl
      · exact ⟨by decide, by decide⟩
      · obtain ⟨u, _, rfl⟩ := List.mem_map.mp hl
        exact noBreak_escY (by decide) _
    · simp only [List.mem_cons, List.not_mem_nil, or_false] at hl
      rcases hl with rfl | rfl <;> exact ⟨by decide, by decide⟩
  rcases List.mem_append.mp hl with hl | hl
  rotate_left
  · -- reprompt line
    rcases List.mem_singleton.mp hl with rfl
    split
    · exact ⟨by decide, by decide⟩
    · exact ⟨by decide, by decide⟩
  rcases List.mem_append.mp hl with hl | hl
  rotate_left
  · -- favorite line
    rcases List.mem_singleton.mp hl with rfl
    split
    · exact ⟨by decide, by decide⟩
    · exact ⟨by decide, by decide⟩
  rcases List.mem_append.mp hl with hl | hl
  rotate_left
  · -- notes block
    split at hl
    · split at hl
      · rcases List.mem_cons.mp hl with rfl | hl
        · exact ⟨by decide, by decide⟩
        · obtain ⟨nl2, hnl2, rfl⟩ := List.mem_map.mp hl
          constructor <;> intro hmem
          · rcases List.mem_append.mp hmem with h2 | h2
            · simp at h2
            · exact (mem_splitNlOnly_subset hnl2 h2).2 rfl
          · rcases List.mem_append.mp hmem with h2 | h2
            · simp at h2
            · exact hrn ((mem_splitNlOnly_subset hnl2 h2).1)
      · rcases List.mem_singleton.mp hl with rfl
        exact noBreak_escY (by decide) _
    · rcases List.mem_singleton.mp hl with rfl
      exact ⟨by decide, by decide⟩
  rcases List.mem_append.mp hl with hl | hl
  rotate_left
  · -- totp line
    split at hl
    · rcases List.mem_singleton.mp hl with rfl
      exact noBreak_escY (by decide) _
    · rcases List.mem_singleton.mp hl with rfl
      exact ⟨by decide, by decide⟩
  rcases List.mem_append.mp hl with hl | hl
  rotate_left
  · -- url line
    split at hl
    · rcases List.mem_singleton.mp hl with rfl
      exact noBreak_escY (by decide) _
    · rcases List.mem_singleton.mp hl with rfl
      exact ⟨by decide, by decide⟩
  rcases List.mem_append.mp hl with hl | hl
  rotate_left
  · -- password line
    split at hl
    · rcases List.mem_singleton.mp hl with rfl
      exact noBreak_escY (by decide) _
    · rcases List.mem_singleton.mp hl with rfl
      exact ⟨by decide, by decide⟩
  rcases List.mem_append.mp hl with hl | hl
  rotate_left
  · -- username line
    split at hl
    · rcases List.mem_singleton.mp hl with rfl
      exact noBreak_escY (by decide) _
    · rcases List.mem_singleton.mp hl with rfl
      exact ⟨by decide, by decide⟩
  rcases List.mem_append.mp hl with hl | hl
  · -- header
    simp only [List.mem_cons, List.not_mem_nil, or_false] at hl
    rcases hl with rfl | rfl | rfl
    · rw [String.data_append]
      constructor <;> intro hmem <;> rcases List.mem_append.mp hmem with h2 | h2
      · exact absurd h2 (by decide)
      · exact hn h2
      · exact absurd h2 (by decide)
      · exact hr h2
    · exact ⟨by decide, by decide⟩
    · exact ⟨by decide, by decide⟩
  · -- name line
    rcases List.mem_singleton.mp hl with rfl
    exact noBreak_escY (by decide) _

theorem user_field_val (o : Option String) :
    (match (if optStrTruthy o then some (.str (o.getD "")) else none :
        Option YScalar) with
      | some (.str s) => if s ≠ "" then s else ""
      | _ => "") = o.getD "" := by
  by_cases ht : optStrTruthy o = true
  · rw [if_pos ht]
    by_cases hg : o.getD "" = "" <;> simp [hg]
  · rw [if_neg ht]
    have hg : o.getD "" = "" := by
      by_contra hne
      exact ht ((optStrTruthy_iff o).mpr hne)
    rw [hg]

theorem notes_field_val (o : Option String) :
    (match (if optStrTruthy o then some (.str (o.getD "")) else none :
        Option YScalar) with
      | some (.str s) => if jsTrim s ≠ "" then jsTrim s else ""
      | _ => "") = jsTrim (o.getD "") := by
  by_cases ht : optStrTruthy o = true
  · rw [if_pos ht]
    by_cases hg : jsTrim (o.getD "") = "" <;> simp [hg]
  · rw [if_neg ht]
    have hg : o.getD "" = "" := by
      by_contra hne
      exact ht ((optStrTruthy_iff o).mpr hne)
    rw [hg]
    rfl

theorem fav_field_val (b : Bool) :
    (match (some (.bool b) : Option YScalar) with
      | some (.bool true) => true
      | _ => false) = b := by
  cases b <;> rfl

theorem reprompt_field_val (r : Int) :
    (match (some (.bool (decide (r = 1))) : Option YScalar) with
      | some (.bool true) => (1 : Int)
      | _ => 0) = if r = 1 then (1 : Int) else 0 := by
  by_cases h : r = 1 <;> simp [h]

theorem filterMap_uri_strs (l : List String) (h : ∀ u ∈ l, jsTrim u ≠ "") :
    (l.map (fun u => YScalar.str u)).filterMap (fun uv =>
      match uv with
      | YScalar.str u =>
        if jsTrim u ≠ "" then some ({ uri := jsTrim u } : Bw.BwUri) else none
      | _ => none) =
    l.map (fun u => ({ uri := jsTrim u } : Bw.BwUri)) := by
  induction l with
  | nil => rfl
  | cons x xs ih =>
    simp only [List.map_cons, List.filterMap_cons]
    rw [if_pos (h x (List.mem_cons_self x xs)),
      ih (fun u hu => h u (List.mem_cons_of_mem x hu))]

theorem filterMap_fieldConv (fs : List Bw.BwField)
    (h : ∀ f ∈ fs, jsTrim f.name ≠ "") :
    (fs.map fieldConv).filterMap (fun cf =>
      match cf.name with
      | some (.str nm) =>
        if jsTrim nm ≠ "" then
          some { name := jsTrim nm
                 value := some (match cf.value with
                   | some (.str v) => v
                   | _ => "")
                 type := (match cf.hidden with
                   | some (.bool true) => (1 : Int)
                   | _ => 0) }
        else none
      | _ => none) =
    fs.map (fun f => Bw.BwField.mk (jsTrim f.name) (some (f.value.getD ""))
      (if f.type = 1 then (1 : Int) else 0)) := by
  induction fs with
  | nil => rfl
  | cons f fs ih =>
    simp only [List.map_cons, List.filterMap_cons, fieldConv]
    rw [ih (fun g hg => h g (List.mem_cons_of_mem f hg))]
    have hf := h f (List.mem_cons_self f fs)
    by_cases htp : f.type = 1 <;> simp [htp, hf]

theorem uris_field_val (lo : Bw.BwLogin)
    (h : ∀ u ∈ lo.uris.getD [], jsTrim u.uri ≠ "") :
    (match (if optStrTruthy (firstUri lo) then
        some (.str ((firstUri lo).getD "")) else none : Option YScalar) with
      | some (.str u) =>
        if jsTrim u ≠ "" then [({ uri := jsTrim u } : Bw.BwUri)] else []
      | _ => []) ++
    (match (if (match lo.uris with
        | some us => decide (us.length > 1)
        | none => false) then
        some ((((lo.uris.getD []).drop 1).map (fun u => u.uri)).map
          (fun u => YScalar.str u))
      else none : Option (List YScalar)) with
      | some urls => urls.filterMap (fun uv =>
          match uv with
          | YScalar.str u =>
            if jsTrim u ≠ "" then some ({ uri := jsTrim u } : Bw.BwUri)
            else none
          | _ => none)
      | none => []) =
    (lo.uris.getD []).map (fun u => ({ uri := jsTrim u.uri } : Bw.BwUri)) := by
  match hu : lo.uris with
  | none => simp [firstUri, hu, optStrTruthy]
  | some [] => simp [firstUri, hu, optStrTruthy]
  | some (u0 :: us) =>
    have h0 : jsTrim u0.uri ≠ "" := by
      refine h u0 ?_
      rw [hu]
      exact List.mem_cons_self u0 us
    have h0t : optStrTruthy (firstUri lo) = true := by
      rw [show firstUri lo = some u0.uri from by rw [firstUri, hu]]
      have : u0.uri ≠ "" := by
        intro he
        rw [he] at h0
        exact h0 rfl
      simp [optStrTruthy, strTruthy, this]
    rw [if_pos h0t]
    rw [show firstUri lo = some u0.uri from by rw [firstUri, hu]]
    cases us with
    | nil => simp [h0]
    | cons v vs =>
      have hcond : (match (some (u0 :: v :: vs) : Option (List Bw.BwUri)) with
          | some us => decide (us.length > 1)
          | none => false) = true := by
        simp
      rw [hcond, if_pos rfl]
      have hrest : ∀ u ∈ ((v :: vs).map (fun u : Bw.BwUri => u.uri)),
          jsTrim u ≠ "" := by
        intro u humem
        obtain ⟨w, hw, rfl⟩ := List.mem_map.mp humem
        refine h w ?_
        rw [hu]
        exact List.mem_cons_of_mem u0 hw
      simp only [Option.getD_some, List.drop_succ_cons, List.drop_zero]
      rw [filterMap_uri_strs _ hrest]
      simp [h0, List.map_map]

theorem fields_field_val (fo : Option (List Bw.BwField))
    (h : ∀ f ∈ fo.getD [], jsTrim f.name ≠ "") :
    (match (if (match fo with
        | some fs => decide (fs.length > 0)
        | none => false) then
        some ((fo.getD []).map fieldConv)
      else none : Option (List YamlCustomField)) with
      | some cfs => cfs.filterMap (fun cf =>
          match cf.name with
          | some (.str nm) =>
            if jsTrim nm ≠ "" then
              some { name := jsTrim nm
                     value := some (match cf.value with
                       | some (.str v) => v
                       | _ => "")
                     type := (match cf.hidden with
                       | some (.bool true) => (1 : Int)
                       | _ => 0) }
            else none
          | _ => none)
      | none => []) =
    (fo.getD []).map (fun f => Bw.BwField.mk (jsTrim f.name)
      (some (f.value.getD "")) (if f.type = 1 then (1 : Int) else 0)) := by
  match fo with
  | none => rfl
  | some [] => rfl
  | some (f :: fs) =>
    rw [show (match (some (f :: fs) : Option (List Bw.BwField)) with
        | some fs => decide (fs.length > 0)
        | none => false) = true from by simp]
    rw [if_pos rfl]
    exact filterMap_fieldConv (f :: fs) h

/-- Master round-trip lemma: for a `ParseSafe` item, the edit surface decodes
back to exactly `expectedPatch`. -/
theorem yamlToItem_round (item : Bw.BwItem) (hps : ParseSafe item) :
    yamlToItem (itemToYaml item) = some (expectedPatch item) := by
  obtain ⟨hn, hr, hname, huris, hfields, hsafe⟩ := hps
  have hnb := noBreak_itemToYamlLines item hn hr hsafe
  have hLne : itemToYamlLines item ≠ [] := by
    simp [itemToYamlLines]
  have hchars : (itemToYaml item).data =
      joinNl (itemToYamlLines item) ++ ['\n'] := rfl
  have hnonl : ∀ l ∈ itemToYamlLines item, '\n' ∉ l := fun l hl => (hnb l hl).1
  have hsplitNl : splitNlOnly (itemToYaml item).data =
      itemToYamlLines item ++ [[]] := by
    rw [hchars]
    exact splitNl_join_trailing _ hLne hnonl
  have hnr : '\r' ∉ (itemToYaml item).data := by
    rw [hchars]
    intro hm
    rcases List.mem_append.mp hm with hmj | hml
    · rcases mem_joinNl_inv hmj with ⟨l, hl, hc⟩ | hcn
      · exact (hnb l hl).2 hc
      · exact absurd hcn (by decide)
    · exact absurd (List.mem_singleton.mp hml) (by decide)
  have hsplitBr : splitBreaks (itemToYaml item).data =
      itemToYamlLines item ++ [[]] := by
    rw [splitBreaks_eq_splitNl _ hnr, hsplitNl]
  have hmemL : ("name: ".data ++ escapeYamlValue item.name) ∈
      itemToYamlLines item := by
    simp [itemToYamlLines]
  have hmemLL : ("name: ".data ++ escapeYamlValue item.name) ∈
      (itemToYamlLines item ++ [[]]) := List.mem_append.mpr (Or.inl hmemL)
  have hpred : (match jsTrimL ("name: ".data ++ escapeYamlValue item.name) with
      | '#' :: _ => false
      | _ => true) = true := by
    rw [show ("name: ".data ++ escapeYamlValue item.name) =
        'n' :: ("ame: ".data ++ escapeYamlValue item.name) from rfl,
      jsTrimL_cons (by decide)]
    rfl
  have hmemK : ("name: ".data ++ escapeYamlValue item.name) ∈
      (itemToYamlLines item ++ [[]]).filter (fun line =>
        match jsTrimL line with
        | '#' :: _ => false
        | _ => true) := List.mem_filter.mpr ⟨hmemLL, hpred⟩
  have hkeep : ¬(jsTrimL (joinNl ((itemToYamlLines item ++ [[]]).filter
      (fun line =>
        match jsTrimL line with
        | '#' :: _ => false
        | _ => true))) = []) := by
    intro h0
    have hin : 'n' ∈ joinNl ((itemToYamlLines item ++ [[]]).filter
        (fun line =>
          match jsTrimL line with
          | '#' :: _ => false
          | _ => true)) :=
      mem_joinNl hmemK (List.mem_cons_self 'n'
        ("ame: ".data ++ escapeYamlValue item.name))
    have hsp := jsTrimL_all_space h0 'n' hin
    exact absurd hsp (by decide)
  simp only [yamlToItem]
  rw [hsplitNl]
  rw [if_neg hkeep]
  simp only [parseYamlDoc]
  rw [hsplitBr]
  rw [parseDoc_emitted item _ _ rfl rfl hsafe]
  simp only [hname]
  rw [if_neg not_false]
  refine congrArg some ?_
  simp only [expectedPatch, ItemPatch.mk.injEq, Bw.BwLogin.mk.injEq,
    Option.some.injEq]
  exact ⟨True.intro, True.intro, ⟨user_field_val _, user_field_val _,
    user_field_val _, uris_field_val _ huris⟩, fav_field_val _,
    reprompt_field_val _, notes_field_val _, fields_field_val _ hfields⟩

end Yaml

/-- **C1** (counterexample).  The round trip is *not* exact for every Login
item: a name with a trailing space comes back trimmed.  `ceItem` has name
`"A "`; the decoded patch's name differs from the original's. -/
theorem c1_roundtrip_counterexample :
    ∃ p, Yaml.yamlToItem (Yaml.itemToYaml Yaml.ceItem) = some p ∧
      p.name ≠ Yaml.ceItem.name := by
  have hps : Yaml.ParseSafe Yaml.ceItem :=
    ⟨by decide, by decide, by decide, by decide, by decide, True.intro⟩
  exact ⟨Yaml.expectedPatch Yaml.ceItem, Yaml.yamlToItem_round Yaml.ceItem hps,
    by decide⟩

/-- **C1** (amended).  For a Login item within the editable surface's
faithful domain (`EditRoundSafe`: name, URIs and custom-field names nonblank
and trim-invariant, the name free of line breaks, custom-field values present
and types 0/1, reprompt 0/1, notes satisfying `notesSafe`), `itemToYaml`
followed by `yamlToItem` reproduces the name, login username/password, TOTP
seed, favorite and reprompt flags, URI list and custom fields exactly —
including values with embedded quotes, backslashes and newlines, which the
escaping protects. -/
theorem c1_roundtrip_amended (item : Bw.BwItem)
    (h : Yaml.EditRoundSafe item) :
    ∃ p, Yaml.yamlToItem (Yaml.itemToYaml item) = some p ∧
      p.name = item.name ∧
      p.login.username = some ((Yaml.loginOf item).username.getD "") ∧
      p.login.password = some ((Yaml.loginOf item).password.getD "") ∧
      p.login.totp = some ((Yaml.loginOf item).totp.getD "") ∧
      Yaml.patchUriStrings p = Yaml.uriStrings item ∧
      p.favorite = item.favorite ∧
      p.reprompt = item.reprompt ∧
      p.fields.map Yaml.fieldCore =
        (item.fields.getD []).map Yaml.fieldCore := by
  obtain ⟨_, hps, hnameInv, hrep, huriInv, hfieldInv⟩ := h
  refine ⟨Yaml.expectedPatch item, Yaml.yamlToItem_round item hps,
    hnameInv, rfl, rfl, rfl, ?_, rfl, ?_, ?_⟩
  · simp only [Yaml.patchUriStrings, Yaml.uriStrings, Yaml.expectedPatch,
      Yaml.loginOf, Option.getD_some, List.map_map]
    exact List.map_congr_left (fun u hu => huriInv u hu)
  · simp only [Yaml.expectedPatch]
    rcases hrep with h0 | h1
    · rw [h0]
      rfl
    · rw [h1]
      rfl
  · simp only [Yaml.expectedPatch, List.map_map]
    refine List.map_congr_left ?_
    intro f hf
    obtain ⟨hnm, _, htp⟩ := hfieldInv f hf
    simp only [Function.comp, Yaml.fieldCore, hnm]
    rcases htp with h0 | h1
    · simp [h0]
    · simp [h1]

/-- **C1** (witness).  The amended round-trip law at a concrete Login item
exercising embedded quotes, backslashes and newlines. -/
theorem c1_roundtrip_amended_witness :
    Yaml.EditRoundSafe Yaml.wItem ∧
    (∃ p, Yaml.yamlToItem (Yaml.itemToYaml Yaml.wItem) = some p ∧
      p.name = Yaml.wItem.name ∧
      p.login.username = some ((Yaml.loginOf Yaml.wItem).username.getD "") ∧
      p.login.password = some ((Yaml.loginOf Yaml.wItem).password.getD "") ∧
      p.login.totp = some ((Yaml.loginOf Yaml.wItem).totp.getD "") ∧
      Yaml.patchUriStrings p = Yaml.uriStrings Yaml.wItem ∧
      p.favorite = Yaml.wItem.favorite ∧
      p.reprompt = Yaml.wItem.reprompt ∧
      p.fields.map Yaml.fieldCore =
        (Yaml.wItem.fields.getD []).map Yaml.fieldCore) := by
  have hs : Yaml.EditRoundSafe Yaml.wItem :=
    ⟨by decide,
     ⟨by decide, by decide, by decide, by decide, by decide,
      ⟨by decide, fun _ => ⟨by decide, by decide⟩⟩⟩,
     by decide, by decide, by decide, by decide⟩
  exact ⟨hs, c1_roundtrip_amended Yaml.wItem hs⟩
